import Mathlib

/-!
Verification development for the ICU identity-resolution, merge and
privacy-suppression pipeline.

The Python sources are shallowly embedded:
* `scripts/anonymise_patients.py`  — identifier normalisation, salted hashing,
  surrogate-ID assignment (`PatientAnonymiser`), `anonymise_dataframe`;
* `scripts/process_patient_data.py` — `ICUDataProcessor`: `load_data_file`,
  `standardise_columns`, `parse_dates`, `validate_data`, `merge_with_master`,
  `process_file`;
* `scripts/validate_registry.py` — `RegistryValidator.check_categorical_values`;
* `scripts/analyse_registry.py` — `suppress_small_cells`,
  `length_of_stay_statistics`, slices of `generate_all_statistics`.

A pandas `DataFrame` is embedded as a list of column names together with a
list of rows; a cell is `Option String` with `none` playing the role of
`NaN` / missing.  `pd.concat(..., ignore_index=True)` aligns on the union of
the columns (columns of the first frame first, then the new columns of the
second, missing cells filled with `NaN`); `df.loc`/`df.at` updates are
embedded as positional row updates.  The external SHA-256 hash from `hashlib`
is not repository code; resolver definitions take the digest function as an
explicit parameter `h` (the spec only assumes it is a fixed collision-resistant
function of its input string).
-/

namespace ICU

/-! ### Small list toolkit

`findIdxO` mirrors the positional lookups (`df.columns.get_loc`,
`Index[0]` of a boolean mask) and `setAt` mirrors an in-place row update
(`df.at[idx, col] = v`). They are defined by structural recursion so their
equations hold by `rfl`. -/

def findIdxO {α : Type} (p : α → Bool) : List α → Option Nat
  | [] => none
  | a :: t => if p a then some 0 else (findIdxO p t).map (· + 1)

def setAt {α : Type} : List α → Nat → α → List α
  | [], _, _ => []
  | _ :: t, 0, a => a :: t
  | b :: t, n + 1, a => b :: setAt t n a

/-! ### The tabular data model -/

/-- A cell of a data frame: `none` is pandas `NaN` (missing). -/
abbrev Cell := Option String

/-- A pandas `DataFrame`: named columns and positionally ordered rows. -/
structure DF where
  cols : List String
  rows : List (List Cell)
deriving DecidableEq, Repr

/-- A data frame is well shaped when every row has one cell per column. -/
def DF.wellShaped (df : DF) : Prop := ∀ r ∈ df.rows, r.length = df.cols.length

/-- The value of column `c` in a row (first occurrence of the name wins,
`none` when the column is absent or the row is too short). -/
def cellOf (cols : List String) (row : List Cell) (c : String) : Cell :=
  match findIdxO (fun x => x = c) cols with
  | some j => row.getD j none
  | none => none

/-- `df.cell i c`: the value of column `c` in row `i`. -/
def DF.cell (df : DF) (i : Nat) (c : String) : Cell :=
  cellOf df.cols (df.rows.getD i []) c

/-- The surrogate-ID column name used throughout the pipeline. -/
def idColName : String := "anonymous_patient_id"

/-- The surrogate ID of a row. -/
def rowId (cols : List String) (row : List Cell) : Cell := cellOf cols row idColName

/-- `df[c]` as a list of cells (callers guard column presence, as the Python
code would raise `KeyError` otherwise). -/
def DF.colValues (df : DF) (c : String) : List Cell :=
  df.rows.map (fun r => cellOf df.cols r c)

/-! ### Registry Merge Engine — `ICUDataProcessor.merge_with_master` -/

/-- One pass of the per-column update of `merge_with_master`
(`for col in new_data.columns: if col in master.columns and pd.notna(new_record[col]):
master.at[idx, col] = new_record[col]`): for each master column position, the
incoming record's value for that column name overwrites the old cell when it is
present in the incoming batch and non-missing. -/
def overwriteRow (nCols : List String) (nRow : List Cell) (mCols : List String)
    (row : List Cell) : List Cell :=
  (mCols.zip row).map (fun cv =>
    match cellOf nCols nRow cv.1 with
    | some v => some v
    | none => cv.2)

/-- Index of the first master row whose surrogate ID equals `p`
(`master[master['anonymous_patient_id'] == patient_id].index[0]`). -/
def firstIdxOf (df : DF) (p : Cell) : Option Nat :=
  findIdxO (fun r => rowId df.cols r = p) df.rows

/-- First incoming record with surrogate ID `p`
(`new_data[new_data['anonymous_patient_id'] == patient_id].iloc[0]`). -/
def firstRecOf (df : DF) (p : Cell) : Option (List Cell) :=
  df.rows.find? (fun r => rowId df.cols r = p)

/-- The body of the `update` loop for one overlapping surrogate ID. -/
def updateOne (b : DF) (m : DF) (p : Cell) : DF :=
  match firstIdxOf m p, firstRecOf b p with
  | some i, some nRow =>
      ⟨m.cols, setAt m.rows i (overwriteRow b.cols nRow m.cols (m.rows.getD i []))⟩
  | _, _ => m

/-- Column union of `pd.concat`: columns of the first frame, then the new
columns of the second, in order. -/
def concatCols (c1 c2 : List String) : List String :=
  c1 ++ c2.filter (fun c => ¬ c ∈ c1)

/-- Reindex a row onto a new column list (`pd.concat` alignment): cells of
known columns are kept, cells of new columns become missing. -/
def reindexRow (oldCols : List String) (row : List Cell) (allCols : List String) :
    List Cell :=
  allCols.map (fun c => cellOf oldCols row c)

/-- `pd.concat([a, b], ignore_index=True)`. -/
def DF.concat (a b : DF) : DF :=
  ⟨concatCols a.cols b.cols,
    a.rows.map (fun r => reindexRow a.cols r (concatCols a.cols b.cols)) ++
      b.rows.map (fun r => reindexRow b.cols r (concatCols a.cols b.cols))⟩

inductive Strategy
  | update
  | append
deriving DecidableEq, Repr

/-- `overlapping = new_ids & existing_ids`: the distinct incoming surrogate
IDs already present in the master.  The Python loop iterates this `set` in
unspecified order; the embedding fixes first-appearance order, on which the
result does not depend because distinct IDs touch distinct rows. -/
def overlappingIds (m b : DF) : List Cell :=
  (b.colValues idColName).dedup.filter (fun p => p ∈ m.colValues idColName)

/-- `new_records = new_data[new_data['anonymous_patient_id'].isin(truly_new)]`. -/
def newRecordsOf (m b : DF) : DF :=
  ⟨b.cols, b.rows.filter (fun r => ¬ rowId b.cols r ∈ m.colValues idColName)⟩

/-- The master after the per-ID update loop (run only under `update`). -/
def updatedMaster (m b : DF) (strategy : Strategy) : DF :=
  if strategy = Strategy.update
  then (overlappingIds m b).foldl (updateOne b) m else m

/-- `ICUDataProcessor.merge_with_master`.  A `none` master adopts the incoming
batch.  Otherwise the surrogate-ID column is read from the master and then
from the batch (each read raises `KeyError` when the column is absent, before
any mutation of the master).  Under `update`, each overlapping surrogate ID
overwrites non-missing incoming fields into the first matching master row;
finally the truly new rows are appended with `pd.concat`. -/
def mergeWithMaster (master : Option DF) (b : DF) (strategy : Strategy) :
    Except String DF :=
  match master with
  | none => Except.ok b
  | some m =>
    if idColName ∈ m.cols then
      if idColName ∈ b.cols then
        Except.ok ((updatedMaster m b strategy).concat (newRecordsOf m b))
      else Except.error "KeyError: anonymous_patient_id not in batch"
    else Except.error "KeyError: anonymous_patient_id not in master"

/-! ### Identity Resolver — `PatientAnonymiser` -/

/-- Python `str.strip()`: remove leading and trailing whitespace. -/
def pyStrip (l : List Char) : List Char :=
  ((l.dropWhile Char.isWhitespace).reverse.dropWhile Char.isWhitespace).reverse

/-- Python `str.upper()` on the ASCII range (identifiers are ASCII). -/
def upperChar : Char → Char
  | 'a' => 'A' | 'b' => 'B' | 'c' => 'C' | 'd' => 'D' | 'e' => 'E' | 'f' => 'F'
  | 'g' => 'G' | 'h' => 'H' | 'i' => 'I' | 'j' => 'J' | 'k' => 'K' | 'l' => 'L'
  | 'm' => 'M' | 'n' => 'N' | 'o' => 'O' | 'p' => 'P' | 'q' => 'Q' | 'r' => 'R'
  | 's' => 'S' | 't' => 'T' | 'u' => 'U' | 'v' => 'V' | 'w' => 'W' | 'x' => 'X'
  | 'y' => 'Y' | 'z' => 'Z'
  | c => c

/-- Python `str.lower()` on the ASCII range. -/
def lowerChar : Char → Char
  | 'A' => 'a' | 'B' => 'b' | 'C' => 'c' | 'D' => 'd' | 'E' => 'e' | 'F' => 'f'
  | 'G' => 'g' | 'H' => 'h' | 'I' => 'i' | 'J' => 'j' | 'K' => 'k' | 'L' => 'l'
  | 'M' => 'm' | 'N' => 'n' | 'O' => 'o' | 'P' => 'p' | 'Q' => 'q' | 'R' => 'r'
  | 'S' => 's' | 'T' => 't' | 'U' => 'u' | 'V' => 'v' | 'W' => 'w' | 'X' => 'x'
  | 'Y' => 'y' | 'Z' => 'z'
  | c => c

/-- `PatientAnonymiser._create_hash` normalisation step:
`str(identifier).strip().upper().replace(' ', '')` — trim, upper-case, then
remove the space character `' '` (and only that character) everywhere. -/
def normaliseChars (l : List Char) : List Char :=
  ((pyStrip l).map upperChar).filter (fun c => ¬ c = ' ')

def normaliseIdentifier (s : String) : String := ⟨normaliseChars s.data⟩

/-- `_create_hash`: digest of `normalised ++ salt` under the hash function `h`
(`hashlib.sha256(...).hexdigest()` is external; `h` stands for it). -/
def createHash (h : String → String) (salt : String) (identifier : String) : String :=
  h (normaliseIdentifier identifier ++ salt)

/-- The in-memory state of a `PatientAnonymiser`: the salt, the
digest → surrogate-ID mapping in insertion order, and the next sequence
number. -/
structure AnonState where
  salt : String
  mapping : List (String × String)
  nextId : Nat
deriving DecidableEq, Repr

/-- `f"ICU-{n:06d}"`. -/
def formatAnonId (n : Nat) : String :=
  "ICU-" ++ ⟨List.replicate (6 - (Nat.repr n).length) '0'⟩ ++ Nat.repr n

/-- First-match association lookup (`self.mapping[hash_value]` on a `dict`
whose keys are unique). -/
def lookupA (l : List (String × String)) (k : String) : Option String :=
  match l with
  | [] => none
  | kv :: t => if kv.1 = k then some kv.2 else lookupA t k

/-- `PatientAnonymiser.get_anonymous_id`: returns the updated state together
with the `(anonymous_id, hash)` pair. -/
def getAnonymousId (h : String → String) (st : AnonState) (identifier : String) :
    AnonState × String × String :=
  match lookupA st.mapping (createHash h st.salt identifier) with
  | some a => (st, a, createHash h st.salt identifier)
  | none =>
      (⟨st.salt,
          st.mapping ++ [(createHash h st.salt identifier, formatAnonId st.nextId)],
          st.nextId + 1⟩,
        formatAnonId st.nextId, createHash h st.salt identifier)

/-- Python `str(x)` on a cell: `str(np.nan)` is `"nan"`. -/
def cellToPyStr (c : Cell) : String :=
  match c with
  | some s => s
  | none => "nan"

/-- Resolve a whole identifier column in row order, threading the resolver
state (`df[identifier_column].apply(self.get_anonymous_id)`). -/
def getAnonymousIds (h : String → String) (st : AnonState) (ids : List Cell) :
    AnonState × List (String × String) :=
  match ids with
  | [] => (st, [])
  | c :: t =>
      let r := getAnonymousId h st (cellToPyStr c)
      let rest := getAnonymousIds h r.1 t
      (rest.1, r.2 :: rest.2)

/-- `df[name] = vals`: overwrite the column in place when it exists, else
append it as the last column. -/
def setCol (df : DF) (name : String) (vals : List Cell) : DF :=
  match findIdxO (fun x => x = name) df.cols with
  | some j => ⟨df.cols, (df.rows.zip vals).map (fun rv => setAt rv.1 j rv.2)⟩
  | none => ⟨df.cols ++ [name], (df.rows.zip vals).map (fun rv => rv.1 ++ [rv.2])⟩

/-- `df.drop(columns=[name])`: remove every column with that name. -/
def dropCol (df : DF) (name : String) : DF :=
  ⟨df.cols.filter (fun c => ¬ c = name),
    df.rows.map (fun r =>
      ((df.cols.zip r).filter (fun cv => ¬ cv.1 = name)).map (fun cv => cv.2))⟩

inductive PErr
  | fileNotFound
  | unsupportedFormat
  | identifierColumnNotFound
  | surrogateColumnMissing
deriving DecidableEq, Repr

/-- `PatientAnonymiser.anonymise_dataframe`: raises when the identifier
column is absent; otherwise assigns `anonymous_patient_id` and
`patient_id_hash` from the resolved column and drops the identifier column. -/
def anonymiseDataframe (h : String → String) (st : AnonState) (df : DF)
    (identifierColumn : String) : Except PErr (AnonState × DF) :=
  if identifierColumn ∈ df.cols then
    let res := getAnonymousIds h st (df.colValues identifierColumn)
    let df1 := setCol df "anonymous_patient_id" (res.2.map (fun p => some p.1))
    let df2 := setCol df1 "patient_id_hash" (res.2.map (fun p => some p.2))
    Except.ok (res.1, dropCol df2 identifierColumn)
  else Except.error PErr.identifierColumnNotFound

/-! ### Suppression Filter — `ICUAnalyser.suppress_small_cells` -/

/-- An output value of the suppression filter: either a kept numeric value or
the masked marker `f"<{threshold}"`. -/
inductive MaskedVal
  | num (v : Int)
  | masked (t : Int)
deriving DecidableEq, Repr

/-- The `dict` branch of `suppress_small_cells`:
`{k: v if v >= threshold else f"<{threshold}" for k, v in data.items()}`. -/
def suppressDict (data : List (String × Int)) (t : Int) : List (String × MaskedVal) :=
  data.map (fun kv => (kv.1, if t ≤ kv.2 then MaskedVal.num kv.2 else MaskedVal.masked t))

/-- The `DataFrame` branch of `suppress_small_cells` on a numeric tabulation:
for each numeric column, `df.loc[df[col] < threshold, col] = f"<{threshold}"`
— per-cell masking. -/
def suppressTable (rows : List (List Int)) (t : Int) : List (List MaskedVal) :=
  rows.map (fun r => r.map (fun v => if t ≤ v then MaskedVal.num v else MaskedVal.masked t))

/-! ### Record Validator — `RegistryValidator.check_categorical_values` -/

def validUnits : List String := ["A600", "C604", "WICU"]

def validOutcomes : List String := ["Survived", "Died"]

/-- A validation issue: check name, severity, number of offending records. -/
structure VIssue where
  check : String
  severity : String
  count : Nat
deriving DecidableEq, Repr

/-- Is this cell a non-missing value outside the vocabulary
(`~df[col].isin(valid) & df[col].notna()`)? -/
def invalidCategorical (valid : List String) (c : Cell) : Bool :=
  match c with
  | some v => ¬ v ∈ valid
  | none => false

/-- `RegistryValidator.check_categorical_values`: the `icu_unit` check appends
an ERROR issue to `self.issues`, the `icu_outcome` check appends a WARNING to
`self.warnings`; each check runs only when its column exists and fires only
when at least one offending record exists.  Returns `(issues, warnings)`. -/
def checkCategoricalValues (df : DF) : List VIssue × List VIssue :=
  let unitIssues :=
    if "icu_unit" ∈ df.cols then
      let bad := df.rows.filter
        (fun r => invalidCategorical validUnits (cellOf df.cols r "icu_unit"))
      if 0 < bad.length then [⟨"icu_unit_values", "ERROR", bad.length⟩] else []
    else []
  let outcomeWarnings :=
    if "icu_outcome" ∈ df.cols then
      let bad := df.rows.filter
        (fun r => invalidCategorical validOutcomes (cellOf df.cols r "icu_outcome"))
      if 0 < bad.length then [⟨"icu_outcome_values", "WARNING", bad.length⟩] else []
    else []
  (unitIssues, outcomeWarnings)

/-! ### Analysis — `ICUAnalyser` (length-of-stay counts and distributions)

`generate_all_statistics` exposes, among other entries, the unsuppressed
`metadata.total_records`, the suppressed `unit_distribution`, and
`length_of_stay` from `length_of_stay_statistics(by_unit=True)`, which has no
suppression step at all.  Only the count-valued parts are embedded; the
medians/quantiles are float statistics, not counts.  A registry row is
abstracted to its `icu_unit` and derived `los_days` cells. -/

structure AnalysisRow where
  icuUnit : Option String
  losDays : Option ℚ
deriving DecidableEq, Repr

/-- `Series.value_counts().to_dict()`: counts of each non-missing value.
(pandas orders by descending count; the embedding keeps first-appearance
order — the key/count pairs are the same.) -/
def valueCounts (l : List (Option String)) : List (String × Int) :=
  let vals := l.filterMap id
  vals.dedup.map (fun v => (v, (vals.count v : Int)))

/-- `length_of_stay_statistics` row filter:
`df[(df['los_days'] > 0) & (df['los_days'] <= 30)]` (`NaN` rows drop out). -/
def losClean (rows : List AnalysisRow) : List AnalysisRow :=
  rows.filter (fun r =>
    match r.losDays with
    | some v => 0 < v ∧ v ≤ 30
    | none => false)

/-- The `count` aggregation of `length_of_stay_statistics(by_unit=True)`:
`los_clean.groupby('icu_unit')['los_days'].agg([..., ('count', 'count')])`
— per unit, the number of retained rows.  `NaN` unit groups drop out;
group order is embedded as first appearance (pandas sorts group keys; the
key/count pairs are the same). -/
def losCountsByUnit (rows : List AnalysisRow) : List (String × Nat) :=
  let clean := losClean rows
  let units := (clean.filterMap (fun r => r.icuUnit)).dedup
  units.map (fun u => (u, (clean.filter (fun r => r.icuUnit = some u)).length))

/-- The count-valued slice of the combined statistics document. -/
structure AllStats where
  totalRecords : Nat
  unitDistribution : List (String × MaskedVal)
  lengthOfStay : List (String × Nat)
deriving DecidableEq, Repr

/-- The corresponding slice of `ICUAnalyser.generate_all_statistics(suppress=True)`:
`metadata.total_records = len(self.df)` (never suppressed),
`unit_distribution` through `suppress_small_cells` with threshold 5, and
`length_of_stay = length_of_stay_statistics(by_unit=True)` with no
suppression applied. -/
def generateAllStats (rows : List AnalysisRow) : AllStats :=
  ⟨rows.length,
    suppressDict (valueCounts (rows.map (fun r => r.icuUnit))) 5,
    losCountsByUnit rows⟩

/-! ### Processing pipeline — `ICUDataProcessor` -/

/-- A source file as the ingestion collaborator presents it: whether it
exists, its suffix, and the table it parses to. -/
structure FileInput where
  present : Bool
  ext : String
  table : DF
deriving Repr

/-- One `processing_log` entry (timestamp elided). -/
structure LogEntry where
  rowCount : Nat
  identifierColumn : String
deriving DecidableEq, Repr

/-- The mutable state of an `ICUDataProcessor`. -/
structure PState where
  anon : AnonState
  master : Option DF
  log : List LogEntry
deriving Repr

def supportedSuffixes : List String := [".csv", ".xlsx", ".xls"]

/-- `ICUDataProcessor.load_data_file`: existence check, format dispatch,
identifier-column check, then the log append — each failure raises before
any state change. -/
def loadDataFile (st : PState) (f : FileInput) (identifierColumn : String) :
    Except PErr (PState × DF) :=
  if ¬ f.present then Except.error PErr.fileNotFound
  else if ¬ f.ext ∈ supportedSuffixes then Except.error PErr.unsupportedFormat
  else if ¬ identifierColumn ∈ f.table.cols then
    Except.error PErr.identifierColumnNotFound
  else Except.ok
    ({ st with log := st.log ++ [⟨f.table.rows.length, identifierColumn⟩] }, f.table)

/-- `standardise_columns`: `df.rename(columns=column_mapping)` — a column
name not in the mapping passes through unchanged. -/
def standardiseColumns (df : DF) (mapping : List (String × String)) : DF :=
  ⟨df.cols.map (fun c => (mapping.lookup c).getD c), df.rows⟩

/-- `parse_dates`: for each declared date column that exists, reparse each
cell with the external parser (`pd.to_datetime(..., errors='coerce')`):
unparsable or missing cells become missing, never an error. -/
def parseDates (parse : String → Option String) (df : DF) (dateCols : List String) : DF :=
  ⟨df.cols,
    df.rows.map (fun r =>
      (df.cols.zip r).map (fun cv =>
        if cv.1 ∈ dateCols then (cv.2.bind parse) else cv.2))⟩

/-- `ICUDataProcessor.validate_data` issue list (pure; the batch itself is
returned unchanged by the Python code). -/
def validateData (df : DF) : List String :=
  let missingRequired :=
    if ¬ "anonymous_patient_id" ∈ df.cols ∨ ¬ "admission_datetime" ∈ df.cols
    then ["Missing required columns"] else []
  let nullIds :=
    if "anonymous_patient_id" ∈ df.cols ∧
        0 < (df.rows.filter (fun r => rowId df.cols r = none)).length
    then ["Null patient IDs"] else []
  let badUnits :=
    if "icu_unit" ∈ df.cols ∧
        0 < (df.rows.filter
          (fun r => invalidCategorical validUnits (cellOf df.cols r "icu_unit"))).length
    then ["Invalid ICU unit"] else []
  missingRequired ++ nullIds ++ badUnits

/-- `standardise_columns` step of `process_file` (skipped when no mapping is
given). -/
def applyMapping (columnMapping : Option (List (String × String))) (df : DF) : DF :=
  match columnMapping with
  | some mp => standardiseColumns df mp
  | none => df

/-- `parse_dates` step of `process_file` (skipped when no date columns are
given). -/
def applyDates (parse : String → Option String) (dateColumns : Option (List String))
    (df : DF) : DF :=
  match dateColumns with
  | some dc => parseDates parse df dc
  | none => df

/-- `ICUDataProcessor.process_file`: load, standardise, parse dates,
anonymise, validate, merge.  Returns the state after the call together with
the error, if any: an exception propagates to the caller and only the state
mutations already performed persist (the log append on a successful load,
the resolver-mapping growth on a successful anonymisation); the master
registry is assigned only after a successful merge.  `validate_data` runs
between anonymisation and merge but is pure — it returns the batch unchanged
and only reports issues (see `validateData`) — so it does not appear in the
state computation. -/
def processFile (h : String → String) (parse : String → Option String)
    (st : PState) (f : FileInput) (identifierColumn : String)
    (columnMapping : Option (List (String × String)))
    (dateColumns : Option (List String)) (strategy : Strategy) :
    PState × Option PErr :=
  match loadDataFile st f identifierColumn with
  | Except.error e => (st, some e)
  | Except.ok sdf =>
    match anonymiseDataframe h sdf.1.anon
        (applyDates parse dateColumns (applyMapping columnMapping sdf.2))
        identifierColumn with
    | Except.error e => (sdf.1, some e)
    | Except.ok adf =>
      match mergeWithMaster sdf.1.master adf.2 strategy with
      | Except.error _ => ({ sdf.1 with anon := adf.1 }, some PErr.surrogateColumnMissing)
      | Except.ok m => ({ sdf.1 with anon := adf.1, master := some m }, none)

/-! ## Lemmas: list toolkit -/

theorem findIdxO_nil {α : Type} (p : α → Bool) : findIdxO p ([] : List α) = none := rfl

theorem findIdxO_cons {α : Type} (p : α → Bool) (a : α) (t : List α) :
    findIdxO p (a :: t) = if p a then some 0 else (findIdxO p t).map (· + 1) := rfl

theorem findIdxO_lt_length {α : Type} {p : α → Bool} {l : List α} {j : Nat}
    (h : findIdxO p l = some j) : j < l.length := by
  induction l generalizing j with
  | nil => exact Option.noConfusion h
  | cons a t ih =>
    rw [findIdxO_cons] at h
    by_cases hp : p a
    · rw [if_pos hp] at h
      cases h
      simp
    · rw [if_neg hp] at h
      cases hj : findIdxO p t with
      | none => rw [hj] at h; exact Option.noConfusion h
      | some k =>
        rw [hj] at h
        simp only [Option.map_some'] at h
        cases h
        simpa using ih hj

theorem findIdxO_found {α : Type} {p : α → Bool} {l : List α} {j : Nat}
    (d : α) (h : findIdxO p l = some j) : p (l.getD j d) = true := by
  induction l generalizing j with
  | nil => exact Option.noConfusion h
  | cons a t ih =>
    rw [findIdxO_cons] at h
    by_cases hp : p a
    · rw [if_pos hp] at h
      cases h
      simpa using hp
    · rw [if_neg hp] at h
      cases hj : findIdxO p t with
      | none => rw [hj] at h; exact Option.noConfusion h
      | some k =>
        rw [hj] at h
        simp only [Option.map_some'] at h
        cases h
        simpa using ih hj

theorem findIdxO_eq_none {α : Type} {p : α → Bool} {l : List α} :
    findIdxO p l = none ↔ ∀ a ∈ l, p a = false := by
  induction l with
  | nil => simp [findIdxO_nil]
  | cons a t ih =>
    rw [findIdxO_cons]
    by_cases hp : p a
    · simp [hp]
    · rw [if_neg hp]
      constructor
      · intro h x hx
        have ht : findIdxO p t = none := by
          cases hj : findIdxO p t with
          | none => rfl
          | some k => rw [hj] at h; exact Option.noConfusion h
        rcases List.mem_cons.mp hx with rfl | hx
        · simpa using hp
        · exact ih.mp ht x hx
      · intro h
        have ht : findIdxO p t = none :=
          ih.mpr (fun x hx => h x (List.mem_cons_of_mem _ hx))
        rw [ht]
        rfl

theorem findIdxO_of_mem {α : Type} {p : α → Bool} {l : List α} {a : α}
    (ha : a ∈ l) (hp : p a = true) : ∃ j, findIdxO p l = some j := by
  cases hj : findIdxO p l with
  | none =>
    have := findIdxO_eq_none.mp hj a ha
    rw [hp] at this
    cases this
  | some j => exact ⟨j, rfl⟩

theorem findIdxO_append_left {α : Type} {p : α → Bool} {l1 l2 : List α} {j : Nat}
    (h : findIdxO p l1 = some j) : findIdxO p (l1 ++ l2) = some j := by
  induction l1 generalizing j with
  | nil => exact Option.noConfusion h
  | cons a t ih =>
    rw [findIdxO_cons] at h
    rw [List.cons_append, findIdxO_cons]
    by_cases hp : p a
    · rw [if_pos hp] at h ⊢
      exact h
    · rw [if_neg hp] at h ⊢
      cases hj : findIdxO p t with
      | none => rw [hj] at h; exact Option.noConfusion h
      | some k =>
        rw [hj] at h
        rw [ih hj]
        exact h

theorem findIdxO_append_right {α : Type} {p : α → Bool} {l1 l2 : List α}
    (h : findIdxO p l1 = none) :
    findIdxO p (l1 ++ l2) = (findIdxO p l2).map (· + l1.length) := by
  induction l1 with
  | nil => simp
  | cons a t ih =>
    rw [findIdxO_cons] at h
    rw [List.cons_append, findIdxO_cons]
    by_cases hp : p a
    · rw [if_pos hp] at h
      exact Option.noConfusion h
    · rw [if_neg hp] at h ⊢
      have ht : findIdxO p t = none := by
        cases hj : findIdxO p t with
        | none => rfl
        | some k => rw [hj] at h; exact Option.noConfusion h
      rw [ih ht]
      cases findIdxO p l2 with
      | none => rfl
      | some k =>
        simp only [Option.map_some', List.length_cons, Option.some.injEq]
        omega

theorem findIdxO_map {α β : Type} (q : β → Bool) (g : α → β) (l : List α) :
    findIdxO q (l.map g) = findIdxO (fun a => q (g a)) l := by
  induction l with
  | nil => rfl
  | cons a t ih => rw [List.map_cons, findIdxO_cons, findIdxO_cons, ih]

theorem findIdxO_find?_getD {α : Type} {p : α → Bool} {l : List α} {j : Nat}
    (d : α) (h : findIdxO p l = some j) : l.find? p = some (l.getD j d) := by
  induction l generalizing j with
  | nil => exact Option.noConfusion h
  | cons a t ih =>
    rw [findIdxO_cons] at h
    by_cases hp : p a
    · rw [if_pos hp] at h
      cases h
      simp [List.find?_cons_of_pos _ hp]
    · rw [if_neg hp] at h
      cases hj : findIdxO p t with
      | none => rw [hj] at h; exact Option.noConfusion h
      | some k =>
        rw [hj] at h
        simp only [Option.map_some'] at h
        cases h
        rw [List.find?_cons_of_neg _ hp]
        simpa using ih hj

theorem setAt_length {α : Type} (l : List α) (i : Nat) (a : α) :
    (setAt l i a).length = l.length := by
  induction l generalizing i with
  | nil => rfl
  | cons b t ih =>
    cases i with
    | zero => rfl
    | succ n => simpa [setAt] using ih n

theorem setAt_getD_self {α : Type} {l : List α} {i : Nat} (a d : α)
    (h : i < l.length) : (setAt l i a).getD i d = a := by
  induction l generalizing i with
  | nil => simp at h
  | cons b t ih =>
    cases i with
    | zero => rfl
    | succ n =>
      rw [setAt, List.getD_cons_succ]
      exact ih (by simpa using h)

theorem setAt_getD_ne {α : Type} {l : List α} {i j : Nat} (a d : α)
    (h : ¬ i = j) : (setAt l i a).getD j d = l.getD j d := by
  induction l generalizing i j with
  | nil => rfl
  | cons b t ih =>
    cases i with
    | zero =>
      cases j with
      | zero => exact absurd rfl h
      | succ k => rfl
    | succ n =>
      cases j with
      | zero => rfl
      | succ k =>
        rw [setAt, List.getD_cons_succ, List.getD_cons_succ]
        exact ih (fun hc => h (by rw [hc]))

theorem setAt_of_getD {α : Type} {l : List α} {i : Nat} {a : α} (d : α)
    (hi : i < l.length) (h : l.getD i d = a) : setAt l i a = l := by
  induction l generalizing i with
  | nil => simp at hi
  | cons b t ih =>
    cases i with
    | zero =>
      simp only [List.getD_cons_zero] at h
      rw [setAt, h]
    | succ n =>
      simp only [List.getD_cons_succ] at h
      rw [setAt, ih (by simpa using hi) h]

theorem getD_append_left {α : Type} {l1 l2 : List α} {i : Nat} (d : α)
    (h : i < l1.length) : (l1 ++ l2).getD i d = l1.getD i d := by
  induction l1 generalizing i with
  | nil => simp at h
  | cons a t ih =>
    cases i with
    | zero => rfl
    | succ n =>
      rw [List.cons_append, List.getD_cons_succ, List.getD_cons_succ]
      exact ih (by simpa using h)

theorem getD_append_right {α : Type} (l1 l2 : List α) (j : Nat) (d : α) :
    (l1 ++ l2).getD (j + l1.length) d = l2.getD j d := by
  induction l1 with
  | nil => simp
  | cons a t ih =>
    have he : j + (a :: t).length = (j + t.length) + 1 := by
      simp only [List.length_cons]
      omega
    rw [he, List.cons_append, List.getD_cons_succ, ih]

theorem getD_map {α β : Type} {l : List α} {i : Nat} (f : α → β) (d : β) (d0 : α)
    (h : i < l.length) : (l.map f).getD i d = f (l.getD i d0) := by
  induction l generalizing i with
  | nil => simp at h
  | cons a t ih =>
    cases i with
    | zero => rfl
    | succ n =>
      rw [List.map_cons, List.getD_cons_succ, List.getD_cons_succ]
      exact ih (by simpa using h)

theorem getD_mem {α : Type} {l : List α} {i : Nat} (d : α)
    (h : i < l.length) : l.getD i d ∈ l := by
  induction l generalizing i with
  | nil => simp at h
  | cons a t ih =>
    cases i with
    | zero => simp
    | succ n =>
      rw [List.getD_cons_succ]
      exact List.mem_cons_of_mem _ (ih (by simpa using h))

theorem find?_filter_of_imp {α : Type} {p q : α → Bool} (l : List α)
    (hpq : ∀ a, p a = true → q a = true) :
    (l.filter q).find? p = l.find? p := by
  induction l with
  | nil => rfl
  | cons a t ih =>
    by_cases hq : q a
    · rw [List.filter_cons_of_pos hq]
      by_cases hp : p a
      · rw [List.find?_cons_of_pos _ hp, List.find?_cons_of_pos _ hp]
      · rw [List.find?_cons_of_neg _ hp, List.find?_cons_of_neg _ hp, ih]
    · rw [List.filter_cons_of_neg hq]
      have hp : ¬ p a = true := fun hp => hq (hpq a hp)
      rw [List.find?_cons_of_neg _ hp, ih]

theorem ext_getD {α : Type} {l1 l2 : List α} (d : α)
    (hlen : l1.length = l2.length)
    (h : ∀ i, i < l1.length → l1.getD i d = l2.getD i d) : l1 = l2 := by
  induction l1 generalizing l2 with
  | nil =>
    cases l2 with
    | nil => rfl
    | cons b t => simp at hlen
  | cons a t ih =>
    cases l2 with
    | nil => simp at hlen
    | cons b s =>
      have h0 := h 0 (by simp)
      simp only [List.getD_cons_zero] at h0
      rw [h0]
      congr 1
      exact ih (by simpa using hlen)
        (fun i hi => by simpa using h (i + 1) (by simpa using hi))

theorem findIdxO_congr {α β : Type} {p : α → Bool} {q : β → Bool}
    {l1 : List α} {l2 : List β} (d : α) (e : β)
    (hlen : l1.length = l2.length)
    (h : ∀ i, i < l1.length → p (l1.getD i d) = q (l2.getD i e)) :
    findIdxO p l1 = findIdxO q l2 := by
  induction l1 generalizing l2 with
  | nil =>
    cases l2 with
    | nil => rfl
    | cons b t => simp at hlen
  | cons a t ih =>
    cases l2 with
    | nil => simp at hlen
    | cons b s =>
      have h0 := h 0 (by simp)
      simp only [List.getD_cons_zero] at h0
      rw [findIdxO_cons, findIdxO_cons, h0]
      rw [ih (by simpa using hlen)
        (fun i hi => by simpa using h (i + 1) (by simpa using hi))]

/-! ## Lemmas: identifier normalisation -/

theorem upperChar_eq_space_iff (c : Char) : upperChar c = ' ' ↔ c = ' ' := by
  unfold upperChar
  split <;> simp_all

theorem lowerChar_whitespace (c : Char) :
    (lowerChar c).isWhitespace = c.isWhitespace := by
  unfold lowerChar
  split <;> rfl

theorem upperChar_lowerChar (c : Char) : upperChar (lowerChar c) = upperChar c := by
  unfold lowerChar
  split <;> rfl

theorem filter_space_dropWhile (l : List Char) :
    (l.dropWhile Char.isWhitespace).filter (fun c => ¬ c = ' ') =
      (l.filter (fun c => ¬ c = ' ')).dropWhile Char.isWhitespace := by
  induction l with
  | nil => rfl
  | cons a t ih =>
    rw [List.dropWhile_cons, List.filter_cons]
    by_cases hsp : a = ' '
    · subst hsp
      rw [if_pos (by decide), if_neg (by decide)]
      exact ih
    · by_cases hws : a.isWhitespace
      · rw [if_pos hws, if_pos (by simpa using hsp), List.dropWhile_cons, if_pos hws]
        exact ih
      · rw [if_neg hws, if_pos (by simpa using hsp), List.dropWhile_cons, if_neg hws,
          List.filter_cons, if_pos (by simpa using hsp)]

theorem filter_space_pyStrip (l : List Char) :
    (pyStrip l).filter (fun c => ¬ c = ' ') =
      pyStrip (l.filter (fun c => ¬ c = ' ')) := by
  unfold pyStrip
  rw [List.filter_reverse, filter_space_dropWhile, List.filter_reverse,
    filter_space_dropWhile]

theorem dropWhile_ws_map_lower (l : List Char) :
    (l.map lowerChar).dropWhile Char.isWhitespace =
      (l.dropWhile Char.isWhitespace).map lowerChar := by
  induction l with
  | nil => rfl
  | cons a t ih =>
    rw [List.map_cons, List.dropWhile_cons, List.dropWhile_cons, lowerChar_whitespace]
    by_cases hws : a.isWhitespace
    · rw [if_pos hws, if_pos hws]
      exact ih
    · rw [if_neg hws, if_neg hws, List.map_cons]

theorem pyStrip_map_lower (l : List Char) :
    pyStrip (l.map lowerChar) = (pyStrip l).map lowerChar := by
  unfold pyStrip
  rw [dropWhile_ws_map_lower, ← List.map_reverse, dropWhile_ws_map_lower,
    ← List.map_reverse]

theorem normaliseChars_normal_form (l : List Char) :
    normaliseChars l = (pyStrip (l.filter (fun c => ¬ c = ' '))).map upperChar := by
  unfold normaliseChars
  rw [List.filter_map]
  rw [show (pyStrip l).filter ((fun c => ¬ c = ' ') ∘ upperChar) =
        (pyStrip l).filter (fun c => ¬ c = ' ') from
      List.filter_congr (fun a _ => by
        simp [Function.comp, upperChar_eq_space_iff])]
  rw [filter_space_pyStrip]

theorem normaliseChars_space_insert (l1 l2 : List Char) :
    normaliseChars (l1 ++ ' ' :: l2) = normaliseChars (l1 ++ l2) := by
  rw [normaliseChars_normal_form, normaliseChars_normal_form,
    List.filter_append, List.filter_append, List.filter_cons, if_neg (by decide)]

theorem normaliseChars_map_lower (l : List Char) :
    normaliseChars (l.map lowerChar) = normaliseChars l := by
  unfold normaliseChars
  rw [pyStrip_map_lower, List.map_map,
    show upperChar ∘ lowerChar = upperChar from funext upperChar_lowerChar]

/-! ## Lemmas: identity resolver (claim C1) -/

theorem lookupA_append_self {l : List (String × String)} {k a : String}
    (h : lookupA l k = none) : lookupA (l ++ [(k, a)]) k = some a := by
  induction l with
  | nil => simp [lookupA]
  | cons kv t ih =>
    rw [lookupA] at h
    rw [List.cons_append, lookupA]
    by_cases hk : kv.1 = k
    · rw [if_pos hk] at h
      exact Option.noConfusion h
    · rw [if_neg hk] at h ⊢
      exact ih h

/-- C1 (amended).  Within one resolver lifetime, resolving any identifier
whose normalisation agrees with a previously resolved identifier returns the
same surrogate ID and the same digest and leaves the resolver state unchanged
(so any number of repeated resolutions agree); and the normalisation is
invariant under inserting or removing the space character anywhere (hence
under leading/trailing spaces and internal spaces) and under letter-case
changes.  (Internal whitespace other than the space character — e.g. a tab —
is NOT normalised away: see the counterexample.) -/
theorem resolve_deterministic_and_space_case_invariant :
    (∀ (h : String → String) (st : AnonState) (x y : String),
        normaliseIdentifier x = normaliseIdentifier y →
        getAnonymousId h (getAnonymousId h st x).1 y = getAnonymousId h st x) ∧
    (∀ l1 l2 : List Char,
        normaliseChars (l1 ++ ' ' :: l2) = normaliseChars (l1 ++ l2)) ∧
    (∀ l : List Char, normaliseChars (l.map lowerChar) = normaliseChars l) := by
  refine ⟨?_, normaliseChars_space_insert, normaliseChars_map_lower⟩
  intro h st x y hn
  have hhash : ∀ s : String, createHash h s y = createHash h s x := by
    intro s
    unfold createHash
    rw [hn]
  cases hl : lookupA st.mapping (createHash h st.salt x) with
  | some a =>
    simp only [getAnonymousId, hl]
    rw [hhash, hl]
  | none =>
    simp only [getAnonymousId, hl]
    rw [hhash, lookupA_append_self hl]

/-- Witness for C1: resolving the space/case variant `" h 1 "` and then
`"H1"` returns the variant's surrogate ID and digest and leaves the state
unchanged. -/
theorem resolve_deterministic_witness :
    getAnonymousId (fun s => s) (getAnonymousId (fun s => s) ⟨"S", [], 1⟩ " h 1 ").1 "H1" =
      getAnonymousId (fun s => s) ⟨"S", [], 1⟩ " h 1 " :=
  resolve_deterministic_and_space_case_invariant.1 (fun s => s) ⟨"S", [], 1⟩
    " h 1 " "H1" (by decide)

/-- C1 counterexample: `"H\t123"` differs from `"H123"` only by one internal
whitespace character (a tab), yet resolving it right after `"H123"` yields a
different digest and a different surrogate ID, because the code removes only
internal spaces, not other internal whitespace. -/
theorem resolve_internal_tab_variant_differs :
    ¬ (getAnonymousId (fun s => s)
          ((getAnonymousId (fun s => s) ⟨"SALT", [], 1⟩ "H123").1) "H\t123").2.2 =
        (getAnonymousId (fun s => s) ⟨"SALT", [], 1⟩ "H123").2.2 ∧
      ¬ (getAnonymousId (fun s => s)
          ((getAnonymousId (fun s => s) ⟨"SALT", [], 1⟩ "H123").1) "H\t123").2.1 =
        (getAnonymousId (fun s => s) ⟨"SALT", [], 1⟩ "H123").2.1 := by
  decide

/-! ## Suppression filter: claim C6 -/

/-- C6.  Every value output by the suppression filter — on a flat
category→count mapping or on a two-dimensional tabulation — is either a
numeric value at least the threshold or the masked marker; and two inputs
whose counts agree except at cells where both are below the threshold
produce identical outputs, so no output value reveals an exact count below
the threshold. -/
theorem suppression_masks_small_cells :
    (∀ (data : List (String × Int)) (t : Int) (kv : String × MaskedVal),
        kv ∈ suppressDict data t →
        (∃ v, kv.2 = MaskedVal.num v ∧ t ≤ v) ∨ kv.2 = MaskedVal.masked t) ∧
    (∀ (rows : List (List Int)) (t : Int) (r : List MaskedVal) (mv : MaskedVal),
        r ∈ suppressTable rows t → mv ∈ r →
        (∃ v, mv = MaskedVal.num v ∧ t ≤ v) ∨ mv = MaskedVal.masked t) ∧
    (∀ (d1 d2 : List (String × Int)) (t : Int),
        List.Forall₂ (fun a b : String × Int =>
          a.1 = b.1 ∧ (a.2 = b.2 ∨ (a.2 < t ∧ b.2 < t))) d1 d2 →
        suppressDict d1 t = suppressDict d2 t) := by
  refine ⟨?_, ?_, ?_⟩
  · intro data t kv hkv
    simp only [suppressDict, List.mem_map] at hkv
    obtain ⟨a, _, rfl⟩ := hkv
    by_cases hle : t ≤ a.2
    · exact Or.inl ⟨a.2, by simp [hle], hle⟩
    · simp [hle]
  · intro rows t r mv hr hmv
    simp only [suppressTable, List.mem_map] at hr
    obtain ⟨row, _, rfl⟩ := hr
    simp only [List.mem_map] at hmv
    obtain ⟨v, _, rfl⟩ := hmv
    by_cases hle : t ≤ v
    · exact Or.inl ⟨v, by simp [hle], hle⟩
    · simp [hle]
  · intro d1 d2 t hf
    induction hf with
    | nil => rfl
    | cons hab htl ih =>
      obtain ⟨h1, h2⟩ := hab
      simp only [suppressDict, List.map_cons] at ih ⊢
      rw [ih]
      rcases h2 with h2 | ⟨ha, hb⟩
      · rw [h1, h2]
      · rw [h1, if_neg (not_le.mpr ha), if_neg (not_le.mpr hb)]

/-- Witness for C6: a count of 1 below threshold 5 is masked, and the
aggregates `{A: 0}` and `{A: 4}` suppress to identical outputs. -/
theorem suppression_masks_small_cells_witness :
    ((∃ v, (("Died", MaskedVal.masked 5) : String × MaskedVal).2 = MaskedVal.num v ∧ (5 : Int) ≤ v) ∨
        (("Died", MaskedVal.masked 5) : String × MaskedVal).2 = MaskedVal.masked 5) ∧
      suppressDict [("A", 0)] 5 = suppressDict [("A", 4)] 5 :=
  ⟨suppression_masks_small_cells.1 [("Died", 1)] 5 ("Died", MaskedVal.masked 5) (by decide),
    suppression_masks_small_cells.2.2 [("A", 0)] [("A", 4)] 5
      (List.Forall₂.cons ⟨rfl, Or.inr ⟨by decide, by decide⟩⟩ List.Forall₂.nil)⟩

/-! ## Analysis: claim C7 -/

/-- C7 (code bug exhibit).  On a registry of three A600 admissions with
valid lengths of stay, the combined statistics document produced by
`generate_all_statistics(suppress=True)` masks the unit distribution count
(3 < 5) but exposes the raw, unsuppressed length-of-stay count 3 for the
same population, and the raw record total 3 — `length_of_stay_statistics`
has no suppression step, contradicting the stated invariant that every
aggregate passes through the suppression filter. -/
theorem los_count_exposed_below_threshold :
    generateAllStats
        [⟨some "A600", some 2⟩, ⟨some "A600", some 3⟩, ⟨some "A600", some 1⟩] =
      ⟨3, [("A600", MaskedVal.masked 5)], [("A600", 3)]⟩ ∧ (3 : Int) < 5 := by
  constructor
  · rfl
  · decide

/-! ## Validator: claim C8 -/

/-- C8.  `check_categorical_values` flags non-missing out-of-vocabulary
values with asymmetric severity: any batch containing a non-missing unit
value outside the unit vocabulary yields an `icu_unit_values` issue of
severity ERROR, any batch containing a non-missing outcome value outside
the outcome vocabulary yields an `icu_outcome_values` issue of severity
WARNING, and a batch whose non-missing values are all within vocabulary
(in particular one whose values are all missing) is never flagged by this
check. -/
theorem categorical_check_severities (df : DF) :
    ("icu_unit" ∈ df.cols →
      (∃ r ∈ df.rows, ∃ v, cellOf df.cols r "icu_unit" = some v ∧ ¬ v ∈ validUnits) →
      ∃ iss ∈ (checkCategoricalValues df).1,
        iss.check = "icu_unit_values" ∧ iss.severity = "ERROR") ∧
    ("icu_outcome" ∈ df.cols →
      (∃ r ∈ df.rows, ∃ v, cellOf df.cols r "icu_outcome" = some v ∧ ¬ v ∈ validOutcomes) →
      ∃ w ∈ (checkCategoricalValues df).2,
        w.check = "icu_outcome_values" ∧ w.severity = "WARNING") ∧
    ((∀ r ∈ df.rows, ∀ v, cellOf df.cols r "icu_unit" = some v → v ∈ validUnits) →
      (checkCategoricalValues df).1 = []) ∧
    ((∀ r ∈ df.rows, ∀ v, cellOf df.cols r "icu_outcome" = some v → v ∈ validOutcomes) →
      (checkCategoricalValues df).2 = []) := by
  refine ⟨?_, ?_, ?_, ?_⟩
  · rintro hcol ⟨r, hr, v, hv, hnv⟩
    have hbad : invalidCategorical validUnits (cellOf df.cols r "icu_unit") = true := by
      rw [hv]
      simpa [invalidCategorical] using hnv
    have hmem : r ∈ df.rows.filter
        (fun r => invalidCategorical validUnits (cellOf df.cols r "icu_unit")) :=
      List.mem_filter.mpr ⟨hr, hbad⟩
    have hlen : 0 < (df.rows.filter
        (fun r => invalidCategorical validUnits (cellOf df.cols r "icu_unit"))).length :=
      List.length_pos.mpr (List.ne_nil_of_mem hmem)
    refine ⟨⟨"icu_unit_values", "ERROR",
      (df.rows.filter
        (fun r => invalidCategorical validUnits (cellOf df.cols r "icu_unit"))).length⟩,
      ?_, rfl, rfl⟩
    simp only [checkCategoricalValues, if_pos hcol, if_pos hlen]
    simp
  · rintro hcol ⟨r, hr, v, hv, hnv⟩
    have hbad : invalidCategorical validOutcomes (cellOf df.cols r "icu_outcome") = true := by
      rw [hv]
      simpa [invalidCategorical] using hnv
    have hmem : r ∈ df.rows.filter
        (fun r => invalidCategorical validOutcomes (cellOf df.cols r "icu_outcome")) :=
      List.mem_filter.mpr ⟨hr, hbad⟩
    have hlen : 0 < (df.rows.filter
        (fun r => invalidCategorical validOutcomes (cellOf df.cols r "icu_outcome"))).length :=
      List.length_pos.mpr (List.ne_nil_of_mem hmem)
    refine ⟨⟨"icu_outcome_values", "WARNING",
      (df.rows.filter
        (fun r => invalidCategorical validOutcomes (cellOf df.cols r "icu_outcome"))).length⟩,
      ?_, rfl, rfl⟩
    simp only [checkCategoricalValues, if_pos hcol, if_pos hlen]
    simp
  · intro hall
    have hnil : df.rows.filter
        (fun r => invalidCategorical validUnits (cellOf df.cols r "icu_unit")) = [] := by
      rw [List.filter_eq_nil_iff]
      intro r hr
      cases hc : cellOf df.cols r "icu_unit" with
      | none => simp [invalidCategorical]
      | some v => simp [invalidCategorical, hall r hr v hc]
    by_cases hcol : "icu_unit" ∈ df.cols
    · simp [checkCategoricalValues, hcol, hnil]
    · simp [checkCategoricalValues, hcol]
  · intro hall
    have hnil : df.rows.filter
        (fun r => invalidCategorical validOutcomes (cellOf df.cols r "icu_outcome")) = [] := by
      rw [List.filter_eq_nil_iff]
      intro r hr
      cases hc : cellOf df.cols r "icu_outcome" with
      | none => simp [invalidCategorical]
      | some v => simp [invalidCategorical, hall r hr v hc]
    by_cases hcol : "icu_outcome" ∈ df.cols
    · simp [checkCategoricalValues, hcol, hnil]
    · simp [checkCategoricalValues, hcol]

/-- Witness for C8: a two-row batch with a bad unit and a bad outcome gets
an ERROR unit issue and a WARNING outcome issue. -/
theorem categorical_check_severities_witness :
    (∃ iss ∈ (checkCategoricalValues
        ⟨["icu_unit", "icu_outcome"],
          [[some "X999", some "Unknown"], [none, none]]⟩).1,
      iss.check = "icu_unit_values" ∧ iss.severity = "ERROR") ∧
    (∃ w ∈ (checkCategoricalValues
        ⟨["icu_unit", "icu_outcome"],
          [[some "X999", some "Unknown"], [none, none]]⟩).2,
      w.check = "icu_outcome_values" ∧ w.severity = "WARNING") :=
  ⟨(categorical_check_severities _).1 (by decide)
      ⟨[some "X999", some "Unknown"], by decide, "X999", by decide, by decide⟩,
    (categorical_check_severities _).2.1 (by decide)
      ⟨[some "X999", some "Unknown"], by decide, "Unknown", by decide, by decide⟩⟩

/-! ## Processing pipeline: claim C9 -/

theorem loadDataFile_ok_state {st : PState} {f : FileInput} {i : String}
    {p : PState × DF} (hp : loadDataFile st f i = Except.ok p) :
    p.1.master = st.master ∧ p.1.anon = st.anon := by
  unfold loadDataFile at hp
  split_ifs at hp
  cases hp
  exact ⟨rfl, rfl⟩

theorem loadDataFile_error_cases {st : PState} {f : FileInput} {i : String}
    (hfail : ¬ f.present = true ∨ ¬ f.ext ∈ supportedSuffixes ∨ ¬ i ∈ f.table.cols) :
    ∃ e, loadDataFile st f i = Except.error e := by
  unfold loadDataFile
  by_cases h1 : f.present
  · rw [if_neg (by simpa using h1)]
    by_cases h2 : f.ext ∈ supportedSuffixes
    · rw [if_neg (by simpa using h2)]
      by_cases h3 : i ∈ f.table.cols
      · rcases hfail with hf | hf | hf
        · exact absurd h1 hf
        · exact absurd h2 hf
        · exact absurd h3 hf
      · rw [if_pos (by simpa using h3)]
        exact ⟨PErr.identifierColumnNotFound, rfl⟩
    · rw [if_pos (by simpa using h2)]
      exact ⟨PErr.unsupportedFormat, rfl⟩
  · rw [if_pos (by simpa using h1)]
    exact ⟨PErr.fileNotFound, rfl⟩

/-- C9.  A failed `process_file` call never touches the master registry:
whenever the call reports an error — the file does not exist, its format is
unsupported, the identifier column is absent from the loaded batch (directly
or after column renaming), or the surrogate-ID column is unavailable at
merge time — the registry in the resulting processor state equals the
registry before the call; and each of the listed precondition violations
does report an error. -/
theorem process_file_failure_preserves_master
    (h : String → String) (parse : String → Option String) (st : PState)
    (f : FileInput) (idc : String) (cm : Option (List (String × String)))
    (dc : Option (List String)) (strat : Strategy) :
    (∀ e, (processFile h parse st f idc cm dc strat).2 = some e →
      (processFile h parse st f idc cm dc strat).1.master = st.master) ∧
    ((¬ f.present = true ∨ ¬ f.ext ∈ supportedSuffixes ∨ ¬ idc ∈ f.table.cols) →
      ∃ e, (processFile h parse st f idc cm dc strat).2 = some e) := by
  constructor
  · intro e he
    cases hload : loadDataFile st f idc with
    | error e1 => simp [processFile, hload]
    | ok sdf =>
      cases hanon : anonymiseDataframe h sdf.1.anon
          (applyDates parse dc (applyMapping cm sdf.2)) idc with
      | error e2 =>
        simp only [processFile, hload, hanon]
        exact (loadDataFile_ok_state hload).1
      | ok adf =>
        cases hmerge : mergeWithMaster sdf.1.master adf.2 strat with
        | error e3 =>
          simp only [processFile, hload, hanon, hmerge]
          exact (loadDataFile_ok_state hload).1
        | ok m =>
          simp only [processFile, hload, hanon, hmerge] at he
          exact Option.noConfusion he
  · intro hfail
    obtain ⟨e, he⟩ := @loadDataFile_error_cases st f idc hfail
    exact ⟨e, by simp [processFile, he]⟩

/-- Witness for C9: processing a missing file reports an error and leaves
the master registry exactly as it was. -/
theorem process_file_failure_preserves_master_witness :
    (processFile (fun s => s) (fun _ => none)
        ⟨⟨"S", [], 1⟩, some ⟨["anonymous_patient_id"], [[some "ICU-000001"]]⟩, []⟩
        ⟨false, ".csv", ⟨[], []⟩⟩ "hospital_number" none none Strategy.update).1.master =
      some ⟨["anonymous_patient_id"], [[some "ICU-000001"]]⟩ ∧
    ∃ e, (processFile (fun s => s) (fun _ => none)
        ⟨⟨"S", [], 1⟩, some ⟨["anonymous_patient_id"], [[some "ICU-000001"]]⟩, []⟩
        ⟨false, ".csv", ⟨[], []⟩⟩ "hospital_number" none none Strategy.update).2 = some e :=
  ⟨(process_file_failure_preserves_master (fun s => s) (fun _ => none) _ _ _ _ _ _).1
      PErr.fileNotFound (by decide),
    (process_file_failure_preserves_master (fun s => s) (fun _ => none) _ _ _ _ _ _).2
      (Or.inl (by decide))⟩

/-! ## Lemmas: cells and rows -/

theorem cellOf_not_mem {cols : List String} {row : List Cell} {c : String}
    (h : ¬ c ∈ cols) : cellOf cols row c = none := by
  unfold cellOf
  rw [findIdxO_eq_none.mpr (fun a ha => by
    simp only [decide_eq_false_iff_not]
    intro hac
    exact h (hac ▸ ha))]

theorem cellOf_of_findIdxO {cols : List String} {row : List Cell} {c : String} {j : Nat}
    (h : findIdxO (fun x => x = c) cols = some j) : cellOf cols row c = row.getD j none := by
  unfold cellOf
  rw [h]

theorem exists_findIdxO_of_mem {cols : List String} {c : String} (h : c ∈ cols) :
    ∃ j, findIdxO (fun x => x = c) cols = some j :=
  findIdxO_of_mem h (by simp)

theorem findIdxO_name {cols : List String} {c : String} {j : Nat}
    (h : findIdxO (fun x => x = c) cols = some j) : cols.getD j "" = c := by
  have := findIdxO_found "" h
  simpa using this

theorem cellOf_map_self {cols : List String} {c : String} (f : String → Cell)
    (h : c ∈ cols) : cellOf cols (cols.map f) c = f c := by
  obtain ⟨j, hj⟩ := exists_findIdxO_of_mem h
  rw [cellOf_of_findIdxO hj, getD_map f none "" (findIdxO_lt_length hj), findIdxO_name hj]

theorem reindexRow_cellOf {oldCols : List String} {row : List Cell}
    {allCols : List String} {c : String} (h : c ∈ allCols) :
    cellOf allCols (reindexRow oldCols row allCols) c = cellOf oldCols row c :=
  cellOf_map_self _ h

theorem reindexRow_length (oldCols : List String) (row : List Cell)
    (allCols : List String) : (reindexRow oldCols row allCols).length = allCols.length := by
  simp [reindexRow]

theorem getD_zip {α β : Type} {l1 : List α} {l2 : List β} {j : Nat} (d1 : α) (d2 : β)
    (h1 : j < l1.length) (h2 : j < l2.length) :
    (l1.zip l2).getD j (d1, d2) = (l1.getD j d1, l2.getD j d2) := by
  induction l1 generalizing l2 j with
  | nil => simp at h1
  | cons a t ih =>
    cases l2 with
    | nil => simp at h2
    | cons b s =>
      cases j with
      | zero => rfl
      | succ n =>
        rw [List.zip_cons_cons, List.getD_cons_succ, List.getD_cons_succ,
          List.getD_cons_succ]
        exact ih (by simpa using h1) (by simpa using h2)

theorem overwriteRow_length {nCols : List String} {nRow : List Cell}
    {mCols : List String} {row : List Cell} (hlen : row.length = mCols.length) :
    (overwriteRow nCols nRow mCols row).length = mCols.length := by
  simp [overwriteRow, hlen]

theorem overwriteRow_cellOf {nCols : List String} {nRow : List Cell}
    {mCols : List String} {row : List Cell} {c : String} {j : Nat}
    (hlen : row.length = mCols.length)
    (hj : findIdxO (fun x => x = c) mCols = some j) :
    cellOf mCols (overwriteRow nCols nRow mCols row) c =
      match cellOf nCols nRow c with
      | some v => some v
      | none => cellOf mCols row c := by
  have hjm : j < mCols.length := findIdxO_lt_length hj
  have hjr : j < row.length := by omega
  have hjz : j < (mCols.zip row).length := by
    rw [List.length_zip]
    omega
  rw [cellOf_of_findIdxO hj, @cellOf_of_findIdxO mCols row c j hj]
  unfold overwriteRow
  rw [getD_map _ none ("", none) hjz, getD_zip "" none hjm hjr, findIdxO_name hj]

theorem overwriteRow_getD {nCols : List String} {nRow : List Cell}
    {mCols : List String} {row : List Cell} {j : Nat}
    (hj : j < mCols.length) (hr : j < row.length) :
    (overwriteRow nCols nRow mCols row).getD j none =
      match cellOf nCols nRow (mCols.getD j "") with
      | some v => some v
      | none => row.getD j none := by
  have hz : j < (mCols.zip row).length := by
    rw [List.length_zip]
    omega
  unfold overwriteRow
  rw [getD_map _ none ("", none) hz, getD_zip "" none hj hr]

theorem overwriteRow_idem {nCols : List String} {nRow : List Cell}
    {mCols : List String} {row : List Cell} (hlen : row.length = mCols.length) :
    overwriteRow nCols nRow mCols (overwriteRow nCols nRow mCols row) =
      overwriteRow nCols nRow mCols row := by
  have h1 : (overwriteRow nCols nRow mCols row).length = mCols.length :=
    overwriteRow_length hlen
  apply ext_getD none
  · rw [overwriteRow_length h1, overwriteRow_length hlen]
  · intro j hj
    rw [overwriteRow_length h1] at hj
    rw [overwriteRow_getD hj (by omega)]
    cases hcv : cellOf nCols nRow (mCols.getD j "") with
    | some v =>
      rw [overwriteRow_getD hj (by omega), hcv]
    | none =>
      rfl

theorem mem_setAt {α : Type} {l : List α} {i : Nat} {x a : α}
    (h : a ∈ setAt l i x) : a ∈ l ∨ a = x := by
  induction l generalizing i with
  | nil => simp [setAt] at h
  | cons b t ih =>
    cases i with
    | zero =>
      rw [setAt] at h
      rcases List.mem_cons.mp h with rfl | h
      · exact Or.inr rfl
      · exact Or.inl (List.mem_cons_of_mem _ h)
    | succ n =>
      rw [setAt] at h
      rcases List.mem_cons.mp h with rfl | h
      · exact Or.inl (List.mem_cons_self _ _)
      · rcases ih h with h | h
        · exact Or.inl (List.mem_cons_of_mem _ h)
        · exact Or.inr h

/-! ## Lemmas: the update loop -/

theorem firstIdxOf_lt {m : DF} {p : Cell} {i : Nat} (h : firstIdxOf m p = some i) :
    i < m.rows.length := findIdxO_lt_length h

theorem firstIdxOf_rowId {m : DF} {p : Cell} {i : Nat} (h : firstIdxOf m p = some i) :
    rowId m.cols (m.rows.getD i []) = p := by
  have := findIdxO_found [] h
  simpa using this

theorem firstRecOf_rowId {b : DF} {p : Cell} {nRow : List Cell}
    (h : firstRecOf b p = some nRow) : rowId b.cols nRow = p := by
  have := List.find?_some h
  simpa using this

theorem mem_colValues_of_firstIdxOf {m : DF} {p : Cell} {i : Nat}
    (h : firstIdxOf m p = some i) : p ∈ m.colValues idColName := by
  have h1 := firstIdxOf_rowId h
  have h2 : m.rows.getD i [] ∈ m.rows := getD_mem [] (firstIdxOf_lt h)
  exact List.mem_map.mpr ⟨_, h2, h1⟩

theorem wellShaped_row {m : DF} (hws : m.wellShaped) {i : Nat}
    (hi : i < m.rows.length) : (m.rows.getD i []).length = m.cols.length :=
  hws _ (getD_mem [] hi)

theorem updateOne_cols (b m : DF) (p : Cell) : (updateOne b m p).cols = m.cols := by
  cases h1 : firstIdxOf m p <;> cases h2 : firstRecOf b p <;> simp [updateOne, h1, h2]

theorem updateOne_rows_length (b m : DF) (p : Cell) :
    (updateOne b m p).rows.length = m.rows.length := by
  cases h1 : firstIdxOf m p <;> cases h2 : firstRecOf b p <;>
    simp [updateOne, h1, h2, setAt_length]

theorem updateOne_untouched {b m : DF} {p : Cell} {j : Nat}
    (h : ¬ firstIdxOf m p = some j) :
    (updateOne b m p).rows.getD j [] = m.rows.getD j [] := by
  cases h1 : firstIdxOf m p with
  | none => cases h2 : firstRecOf b p <;> simp [updateOne, h1, h2]
  | some i =>
    cases h2 : firstRecOf b p with
    | none => simp [updateOne, h1, h2]
    | some nRow =>
      simp only [updateOne, h1, h2]
      exact setAt_getD_ne _ _ (fun hc => h (by rw [h1, hc]))

theorem updateOne_touched {b m : DF} {p : Cell} {i : Nat} {nRow : List Cell}
    (h1 : firstIdxOf m p = some i) (h2 : firstRecOf b p = some nRow) :
    (updateOne b m p).rows.getD i [] =
      overwriteRow b.cols nRow m.cols (m.rows.getD i []) := by
  simp only [updateOne, h1, h2]
  exact setAt_getD_self _ _ (firstIdxOf_lt h1)

theorem updateOne_wellShaped {b m : DF} {p : Cell} (hws : m.wellShaped) :
    (updateOne b m p).wellShaped := by
  cases h1 : firstIdxOf m p with
  | none =>
    cases h2 : firstRecOf b p <;> simp only [updateOne, h1, h2] <;> exact hws
  | some i =>
    cases h2 : firstRecOf b p with
    | none => simp only [updateOne, h1, h2]; exact hws
    | some nRow =>
      simp only [updateOne, h1, h2]
      intro r hr
      rcases mem_setAt hr with hmem | rfl
      · exact hws r hmem
      · exact overwriteRow_length (wellShaped_row hws (firstIdxOf_lt h1))

theorem updateOne_rowId {b m : DF} {p : Cell} (hws : m.wellShaped) (j : Nat) :
    rowId m.cols ((updateOne b m p).rows.getD j []) =
      rowId m.cols (m.rows.getD j []) := by
  by_cases hj : firstIdxOf m p = some j
  · cases h2 : firstRecOf b p with
    | none =>
      simp [updateOne, hj, h2]
    | some nRow =>
      rw [updateOne_touched hj h2]
      by_cases hmem : idColName ∈ m.cols
      · obtain ⟨k, hk⟩ := exists_findIdxO_of_mem hmem
        unfold rowId
        rw [overwriteRow_cellOf (wellShaped_row hws (firstIdxOf_lt hj)) hk]
        have hbid : cellOf b.cols nRow idColName = p := firstRecOf_rowId h2
        have hmid : cellOf m.cols (m.rows.getD j []) idColName = p :=
          firstIdxOf_rowId hj
        rw [hbid, hmid]
        cases p <;> rfl
      · unfold rowId
        rw [cellOf_not_mem hmem, cellOf_not_mem hmem]
  · rw [updateOne_untouched hj]

theorem updateOne_firstIdxOf {b m : DF} {p : Cell} (hws : m.wellShaped) (q : Cell) :
    firstIdxOf (updateOne b m p) q = firstIdxOf m q := by
  unfold firstIdxOf
  rw [updateOne_cols]
  exact findIdxO_congr [] [] (by rw [updateOne_rows_length])
    (fun i hi => by rw [updateOne_rowId hws i])

theorem foldl_updateOne_cols (b : DF) (L : List Cell) (m : DF) :
    (L.foldl (updateOne b) m).cols = m.cols := by
  induction L generalizing m with
  | nil => rfl
  | cons q t ih => rw [List.foldl_cons, ih, updateOne_cols]

theorem foldl_updateOne_length (b : DF) (L : List Cell) (m : DF) :
    (L.foldl (updateOne b) m).rows.length = m.rows.length := by
  induction L generalizing m with
  | nil => rfl
  | cons q t ih => rw [List.foldl_cons, ih, updateOne_rows_length]

theorem foldl_updateOne_wellShaped (b : DF) (L : List Cell) {m : DF}
    (hws : m.wellShaped) : (L.foldl (updateOne b) m).wellShaped := by
  induction L generalizing m with
  | nil => exact hws
  | cons q t ih =>
    rw [List.foldl_cons]
    exact ih (updateOne_wellShaped hws)

theorem foldl_updateOne_rowId (b : DF) (L : List Cell) {m : DF}
    (hws : m.wellShaped) (j : Nat) :
    rowId m.cols ((L.foldl (updateOne b) m).rows.getD j []) =
      rowId m.cols (m.rows.getD j []) := by
  induction L generalizing m with
  | nil => rfl
  | cons q t ih =>
    rw [List.foldl_cons]
    have := @ih (updateOne b m q) (updateOne_wellShaped hws)
    rw [updateOne_cols] at this
    rw [this, updateOne_rowId hws]

theorem foldl_updateOne_firstIdxOf (b : DF) (L : List Cell) {m : DF}
    (hws : m.wellShaped) (q : Cell) :
    firstIdxOf (L.foldl (updateOne b) m) q = firstIdxOf m q := by
  unfold firstIdxOf
  rw [foldl_updateOne_cols]
  exact findIdxO_congr [] [] (by rw [foldl_updateOne_length])
    (fun i hi => by rw [foldl_updateOne_rowId b L hws i])

theorem foldl_updateOne_untouched (b : DF) (L : List Cell) {m : DF} {j : Nat}
    (hws : m.wellShaped) (h : ∀ p ∈ L, ¬ firstIdxOf m p = some j) :
    (L.foldl (updateOne b) m).rows.getD j [] = m.rows.getD j [] := by
  induction L generalizing m with
  | nil => rfl
  | cons q t ih =>
    rw [List.foldl_cons]
    rw [ih (updateOne_wellShaped hws) (fun p hp => by
      rw [updateOne_firstIdxOf hws]
      exact h p (List.mem_cons_of_mem _ hp))]
    exact updateOne_untouched (h q (List.mem_cons_self _ _))

theorem foldl_updateOne_touched (b : DF) (L : List Cell) {m : DF} {p : Cell}
    {i : Nat} {nRow : List Cell} (hws : m.wellShaped) (hnd : L.Nodup)
    (hp : p ∈ L) (hi : firstIdxOf m p = some i) (hrec : firstRecOf b p = some nRow) :
    (L.foldl (updateOne b) m).rows.getD i [] =
      overwriteRow b.cols nRow m.cols (m.rows.getD i []) := by
  induction L generalizing m with
  | nil => simp at hp
  | cons q t ih =>
    rw [List.foldl_cons]
    by_cases hqp : q = p
    · subst hqp
      have hnotin : ¬ q ∈ t := (List.nodup_cons.mp hnd).1
      rw [foldl_updateOne_untouched b t (updateOne_wellShaped hws) (fun x hx => by
        rw [updateOne_firstIdxOf hws]
        intro hcontra
        have hxq : x = q := by
          rw [← firstIdxOf_rowId hcontra, ← firstIdxOf_rowId hi]
        exact hnotin (hxq ▸ hx))]
      exact updateOne_touched hi hrec
    · have hpt : p ∈ t := by
        rcases List.mem_cons.mp hp with rfl | hpt
        · exact absurd rfl hqp
        · exact hpt
      have hqi : ¬ firstIdxOf m q = some i := by
        intro hcontra
        exact hqp (by rw [← firstIdxOf_rowId hcontra, ← firstIdxOf_rowId hi])
      have hrow : (updateOne b m q).rows.getD i [] = m.rows.getD i [] :=
        updateOne_untouched hqi
      have := @ih (updateOne b m q) (updateOne_wellShaped hws)
        (List.nodup_cons.mp hnd).2 hpt
        (by rw [updateOne_firstIdxOf hws]; exact hi) 
      rw [updateOne_cols, hrow] at this
      exact this

/-! ## Lemmas: merge engine -/

theorem merge_ok {m b : DF} (hm : idColName ∈ m.cols) (hb : idColName ∈ b.cols)
    (strat : Strategy) :
    mergeWithMaster (some m) b strat =
      Except.ok ((updatedMaster m b strat).concat (newRecordsOf m b)) := by
  simp [mergeWithMaster, hm, hb]

theorem concat_rows_length (a bb : DF) :
    (a.concat bb).rows.length = a.rows.length + bb.rows.length := by
  simp [DF.concat]

theorem concat_row_left {a bb : DF} {i : Nat} (hi : i < a.rows.length) :
    (a.concat bb).rows.getD i [] =
      reindexRow a.cols (a.rows.getD i []) (concatCols a.cols bb.cols) := by
  rw [show (a.concat bb).rows =
      a.rows.map (fun r => reindexRow a.cols r (concatCols a.cols bb.cols)) ++
        bb.rows.map (fun r => reindexRow bb.cols r (concatCols a.cols bb.cols)) from rfl]
  rw [getD_append_left [] (by simpa using hi), getD_map _ [] [] hi]

theorem mem_concatCols_left {c : String} {c1 c2 : List String} (h : c ∈ c1) :
    c ∈ concatCols c1 c2 :=
  List.mem_append_left _ h

theorem concat_cell_left {a bb : DF} {i : Nat} {c : String}
    (hi : i < a.rows.length) (hc : c ∈ a.cols) :
    (a.concat bb).cell i c = cellOf a.cols (a.rows.getD i []) c := by
  unfold DF.cell
  rw [concat_row_left hi]
  exact reindexRow_cellOf (mem_concatCols_left hc)

theorem concat_cell_left_not_mem {a bb : DF} {i : Nat} {c : String}
    (hi : i < a.rows.length) (hc : ¬ c ∈ a.cols) :
    (a.concat bb).cell i c = none := by
  unfold DF.cell
  rw [concat_row_left hi,
    show (a.concat bb).cols = concatCols a.cols bb.cols from rfl]
  by_cases hcs : c ∈ concatCols a.cols bb.cols
  · rw [reindexRow_cellOf hcs, cellOf_not_mem hc]
  · exact cellOf_not_mem hcs

theorem updatedMaster_cols (m b : DF) (s : Strategy) :
    (updatedMaster m b s).cols = m.cols := by
  unfold updatedMaster
  split
  · exact foldl_updateOne_cols b _ m
  · rfl

theorem updatedMaster_length (m b : DF) (s : Strategy) :
    (updatedMaster m b s).rows.length = m.rows.length := by
  unfold updatedMaster
  split
  · exact foldl_updateOne_length b _ m
  · rfl

theorem updatedMaster_wellShaped {m : DF} (b : DF) (s : Strategy)
    (hws : m.wellShaped) : (updatedMaster m b s).wellShaped := by
  unfold updatedMaster
  split
  · exact foldl_updateOne_wellShaped b _ hws
  · exact hws

theorem updatedMaster_untouched {m b : DF} {s : Strategy} (hws : m.wellShaped)
    {i : Nat} (hnb : ¬ rowId m.cols (m.rows.getD i []) ∈ b.colValues idColName) :
    (updatedMaster m b s).rows.getD i [] = m.rows.getD i [] := by
  unfold updatedMaster
  split
  · apply foldl_updateOne_untouched b _ hws
    intro p hp hcontra
    have hpid := firstIdxOf_rowId hcontra
    have hpb : p ∈ b.colValues idColName :=
      List.mem_dedup.mp (List.mem_filter.mp hp).1
    exact hnb (hpid ▸ hpb)
  · rfl

theorem updatedMaster_touched {m b : DF} (hws : m.wellShaped) {p : Cell} {i : Nat}
    {nRow : List Cell} (hp : p ∈ b.colValues idColName)
    (hi : firstIdxOf m p = some i) (hrec : firstRecOf b p = some nRow) :
    (updatedMaster m b Strategy.update).rows.getD i [] =
      overwriteRow b.cols nRow m.cols (m.rows.getD i []) := by
  unfold updatedMaster
  rw [if_pos rfl]
  refine foldl_updateOne_touched b _ hws ?_ ?_ hi hrec
  · exact List.Nodup.filter _ (List.nodup_dedup _)
  · refine List.mem_filter.mpr ⟨List.mem_dedup.mpr hp, ?_⟩
    simpa using mem_colValues_of_firstIdxOf hi

/-! ## Merge engine: claims C5, C4, C2 -/

/-- C5.  Merge is non-destructive for every strategy: the merged registry
has at least as many rows as the master, and every master row whose
surrogate ID does not occur in the incoming batch keeps its position `i` and
all of its field values. -/
theorem merge_non_destructive (m b res : DF) (strat : Strategy)
    (hm : idColName ∈ m.cols) (hb : idColName ∈ b.cols) (hws : m.wellShaped)
    (hres : mergeWithMaster (some m) b strat = Except.ok res) :
    m.rows.length ≤ res.rows.length ∧
    (∀ i, i < m.rows.length →
      ¬ rowId m.cols (m.rows.getD i []) ∈ b.colValues idColName →
      ∀ c ∈ m.cols, res.cell i c = m.cell i c) := by
  rw [merge_ok hm hb strat] at hres
  cases hres
  constructor
  · rw [concat_rows_length, updatedMaster_length]
    omega
  · intro i hi hnb c hc
    have hiU : i < (updatedMaster m b strat).rows.length := by
      rw [updatedMaster_length]
      exact hi
    rw [concat_cell_left hiU (by rw [updatedMaster_cols]; exact hc)]
    rw [updatedMaster_untouched hws hnb, updatedMaster_cols]
    rfl

/-- Witness for C5: merging a batch with a fresh surrogate ID appends a row
and leaves the untouched master row byte-identical at its position. -/
theorem merge_non_destructive_witness :
    (1 : Nat) ≤ (⟨["anonymous_patient_id"], [[some "P1"], [some "P2"]]⟩ : DF).rows.length ∧
      (⟨["anonymous_patient_id"], [[some "P1"], [some "P2"]]⟩ : DF).cell 0 "anonymous_patient_id" =
        (⟨["anonymous_patient_id"], [[some "P1"]]⟩ : DF).cell 0 "anonymous_patient_id" :=
  ⟨(merge_non_destructive ⟨["anonymous_patient_id"], [[some "P1"]]⟩
      ⟨["anonymous_patient_id"], [[some "P2"]]⟩
      ⟨["anonymous_patient_id"], [[some "P1"], [some "P2"]]⟩ Strategy.update
      (by decide) (by decide) (by unfold DF.wellShaped; decide) rfl).1,
    (merge_non_destructive ⟨["anonymous_patient_id"], [[some "P1"]]⟩
      ⟨["anonymous_patient_id"], [[some "P2"]]⟩
      ⟨["anonymous_patient_id"], [[some "P1"], [some "P2"]]⟩ Strategy.update
      (by decide) (by decide) (by unfold DF.wellShaped; decide) rfl).2 0 (by decide) (by decide)
      "anonymous_patient_id" (by decide)⟩

/-- C4.  Update-merge null-safety: for a matched surrogate ID, a field whose
value in the (first matching) incoming record is missing leaves the first
matching master row's value for that field unchanged. -/
theorem update_merge_null_safety (m b res : DF) (p : Cell) (i : Nat)
    (nRow : List Cell) (c : String)
    (hm : idColName ∈ m.cols) (hb : idColName ∈ b.cols) (hws : m.wellShaped)
    (hp : p ∈ b.colValues idColName) (hi : firstIdxOf m p = some i)
    (hrec : firstRecOf b p = some nRow) (hcell : cellOf b.cols nRow c = none)
    (hres : mergeWithMaster (some m) b Strategy.update = Except.ok res) :
    res.cell i c = m.cell i c := by
  rw [merge_ok hm hb Strategy.update] at hres
  cases hres
  have hiU : i < (updatedMaster m b Strategy.update).rows.length := by
    rw [updatedMaster_length]
    exact firstIdxOf_lt hi
  by_cases hc : c ∈ m.cols
  · obtain ⟨j, hj⟩ := exists_findIdxO_of_mem hc
    rw [concat_cell_left hiU (by rw [updatedMaster_cols]; exact hc)]
    rw [updatedMaster_touched hws hp hi hrec, updatedMaster_cols]
    rw [overwriteRow_cellOf (wellShaped_row hws (firstIdxOf_lt hi)) hj, hcell]
    rfl
  · rw [concat_cell_left_not_mem hiU (by rw [updatedMaster_cols]; exact hc)]
    unfold DF.cell
    rw [cellOf_not_mem hc]

/-- Witness for C4: a missing incoming `x` value leaves the matched master
row's `x` untouched. -/
theorem update_merge_null_safety_witness :
    (⟨["anonymous_patient_id", "x"], [[some "P1", some "old"]]⟩ : DF).cell 0 "x" =
      (⟨["anonymous_patient_id", "x"], [[some "P1", some "old"]]⟩ : DF).cell 0 "x" :=
  update_merge_null_safety
    ⟨["anonymous_patient_id", "x"], [[some "P1", some "old"]]⟩
    ⟨["anonymous_patient_id", "x"], [[some "P1", none]]⟩
    ⟨["anonymous_patient_id", "x"], [[some "P1", some "old"]]⟩
    (some "P1") 0 [some "P1", none] "x"
    (by decide) (by decide) (by unfold DF.wellShaped; decide) (by decide) rfl rfl rfl rfl

/-- C2 counterexample: merging batch B = {P1, icu_outcome: Survived} into a
master that has no `icu_outcome` column leaves the existing P1 row's
`icu_outcome` missing — a field new to the master is NOT written into the
matched row (the column appears, filled with missing), contrary to the
claim that the row gains the incoming outcome value. -/
theorem update_merge_new_field_not_written :
    mergeWithMaster (some ⟨["anonymous_patient_id"], [[some "P1"]]⟩)
        ⟨["anonymous_patient_id", "icu_outcome"], [[some "P1", some "Survived"]]⟩
        Strategy.update =
      Except.ok ⟨["anonymous_patient_id", "icu_outcome"], [[some "P1", none]]⟩ ∧
    ¬ (⟨["anonymous_patient_id", "icu_outcome"], [[some "P1", none]]⟩ : DF).cell 0
        "icu_outcome" = some "Survived" := by
  constructor
  · rfl
  · decide

/-- C2 (amended).  Under strategy `update`, for a matched surrogate ID,
every field present in BOTH the incoming batch and the master whose
incoming value (in the first matching incoming record) is non-missing
overwrites that field in the first matching master row; a field new to the
master is NOT written into that row (its value there is missing); and when
every incoming surrogate ID already occurs in the master the row count is
unchanged. -/
theorem update_merge_overwrites_shared_fields (m b res : DF) (p : Cell) (i : Nat)
    (nRow : List Cell)
    (hm : idColName ∈ m.cols) (hb : idColName ∈ b.cols) (hws : m.wellShaped)
    (hp : p ∈ b.colValues idColName) (hi : firstIdxOf m p = some i)
    (hrec : firstRecOf b p = some nRow)
    (hres : mergeWithMaster (some m) b Strategy.update = Except.ok res) :
    (∀ c v, c ∈ m.cols → cellOf b.cols nRow c = some v → res.cell i c = some v) ∧
    (∀ c2, ¬ c2 ∈ m.cols → res.cell i c2 = none) ∧
    ((∀ r ∈ b.rows, rowId b.cols r ∈ m.colValues idColName) →
      res.rows.length = m.rows.length) := by
  rw [merge_ok hm hb Strategy.update] at hres
  cases hres
  have hiU : i < (updatedMaster m b Strategy.update).rows.length := by
    rw [updatedMaster_length]
    exact firstIdxOf_lt hi
  refine ⟨?_, ?_, ?_⟩
  · intro c v hc hcv
    obtain ⟨j, hj⟩ := exists_findIdxO_of_mem hc
    rw [concat_cell_left hiU (by rw [updatedMaster_cols]; exact hc)]
    rw [updatedMaster_touched hws hp hi hrec, updatedMaster_cols]
    rw [overwriteRow_cellOf (wellShaped_row hws (firstIdxOf_lt hi)) hj, hcv]
  · intro c2 hc2
    exact concat_cell_left_not_mem hiU (by rw [updatedMaster_cols]; exact hc2)
  · intro hall
    have hnil : (newRecordsOf m b).rows = [] := by
      show b.rows.filter _ = []
      rw [List.filter_eq_nil_iff]
      intro r hr
      simp [hall r hr]
    rw [concat_rows_length, updatedMaster_length, hnil]
    simp

/-- Witness for C2 (amended): the shared field `x` is overwritten, the
master-new field `icu_outcome` stays missing in the matched row, and the
row count is unchanged. -/
theorem update_merge_overwrites_shared_fields_witness :
    (⟨["anonymous_patient_id", "x", "icu_outcome"],
        [[some "P1", some "b", none]]⟩ : DF).cell 0 "x" = some "b" ∧
      (⟨["anonymous_patient_id", "x", "icu_outcome"],
        [[some "P1", some "b", none]]⟩ : DF).cell 0 "icu_outcome" = none ∧
      (⟨["anonymous_patient_id", "x", "icu_outcome"],
        [[some "P1", some "b", none]]⟩ : DF).rows.length = 1 :=
  ⟨(update_merge_overwrites_shared_fields
      ⟨["anonymous_patient_id", "x"], [[some "P1", some "a"]]⟩
      ⟨["anonymous_patient_id", "x", "icu_outcome"],
        [[some "P1", some "b", some "Survived"]]⟩
      ⟨["anonymous_patient_id", "x", "icu_outcome"], [[some "P1", some "b", none]]⟩
      (some "P1") 0 [some "P1", some "b", some "Survived"]
      (by decide) (by decide) (by unfold DF.wellShaped; decide) (by decide) rfl rfl rfl).1
      "x" "b" (by decide) (by decide),
    (update_merge_overwrites_shared_fields
      ⟨["anonymous_patient_id", "x"], [[some "P1", some "a"]]⟩
      ⟨["anonymous_patient_id", "x", "icu_outcome"],
        [[some "P1", some "b", some "Survived"]]⟩
      ⟨["anonymous_patient_id", "x", "icu_outcome"], [[some "P1", some "b", none]]⟩
      (some "P1") 0 [some "P1", some "b", some "Survived"]
      (by decide) (by decide) (by unfold DF.wellShaped; decide) (by decide) rfl rfl rfl).2.1
      "icu_outcome" (by decide),
    (update_merge_overwrites_shared_fields
      ⟨["anonymous_patient_id", "x"], [[some "P1", some "a"]]⟩
      ⟨["anonymous_patient_id", "x", "icu_outcome"],
        [[some "P1", some "b", some "Survived"]]⟩
      ⟨["anonymous_patient_id", "x", "icu_outcome"], [[some "P1", some "b", none]]⟩
      (some "P1") 0 [some "P1", some "b", some "Survived"]
      (by decide) (by decide) (by unfold DF.wellShaped; decide) (by decide) rfl rfl rfl).2.2
      (by decide)⟩

/-! ## Lemmas: merge idempotence (claim C3) -/

theorem concatCols_subset {c1 c2 : List String} (hsub : ∀ c ∈ c2, c ∈ c1) :
    concatCols c1 c2 = c1 := by
  unfold concatCols
  rw [List.filter_eq_nil_iff.mpr (fun a ha => by simp [hsub a ha]), List.append_nil]

theorem map_id_of {α : Type} {l : List α} {f : α → α} (h : ∀ a ∈ l, f a = a) :
    l.map f = l := by
  induction l with
  | nil => rfl
  | cons a t ih =>
    rw [List.map_cons, h a (List.mem_cons_self _ _),
      ih (fun x hx => h x (List.mem_cons_of_mem _ hx))]

theorem findIdxO_self_nodup {cols : List String} (hnd : cols.Nodup) {j : Nat}
    (hj : j < cols.length) :
    findIdxO (fun x => x = cols.getD j "") cols = some j := by
  induction cols generalizing j with
  | nil => simp at hj
  | cons a t ih =>
    cases j with
    | zero =>
      rw [List.getD_cons_zero, findIdxO_cons, if_pos (by simp)]
    | succ n =>
      rw [List.getD_cons_succ, findIdxO_cons]
      have hmem : t.getD n "" ∈ t := getD_mem "" (by simpa using hj)
      have hne : ¬ a = t.getD n "" := fun hc => (List.nodup_cons.mp hnd).1 (hc ▸ hmem)
      rw [if_neg (by simpa using hne),
        ih (List.nodup_cons.mp hnd).2 (by simpa using hj)]
      rfl

theorem reindexRow_self {cols : List String} {row : List Cell} (hnd : cols.Nodup)
    (hlen : row.length = cols.length) : reindexRow cols row cols = row := by
  apply ext_getD none
  · rw [reindexRow_length]
    omega
  · intro j hj
    rw [reindexRow_length] at hj
    rw [show reindexRow cols row cols = cols.map (fun c => cellOf cols row c) from rfl]
    rw [getD_map _ none "" hj]
    rw [cellOf_of_findIdxO (findIdxO_self_nodup hnd hj)]

theorem concat_wellShaped (a bb : DF) : (a.concat bb).wellShaped := by
  intro r hr
  rcases List.mem_append.mp hr with h | h <;>
    obtain ⟨r0, _, rfl⟩ := List.mem_map.mp h <;>
    exact reindexRow_length _ _ _

theorem findIdxO_congr_pred {α : Type} {p q : α → Bool} (h : ∀ a, p a = q a)
    (l : List α) : findIdxO p l = findIdxO q l := by
  induction l with
  | nil => rfl
  | cons a t ih => rw [findIdxO_cons, findIdxO_cons, h a, ih]

theorem foldl_updateOne_id {b m : DF} {L : List Cell}
    (h : ∀ p ∈ L, updateOne b m p = m) : L.foldl (updateOne b) m = m := by
  induction L with
  | nil => rfl
  | cons q t ih =>
    rw [List.foldl_cons, h q (List.mem_cons_self _ _),
      ih (fun p hp => h p (List.mem_cons_of_mem _ hp))]

theorem updatedMaster_firstIdxOf {m b : DF} {s : Strategy} (hws : m.wellShaped)
    (q : Cell) : firstIdxOf (updatedMaster m b s) q = firstIdxOf m q := by
  unfold updatedMaster
  split
  · exact foldl_updateOne_firstIdxOf b _ hws q
  · rfl

theorem updatedMaster_rowId {m b : DF} {s : Strategy} (hws : m.wellShaped) (j : Nat) :
    rowId m.cols ((updatedMaster m b s).rows.getD j []) =
      rowId m.cols (m.rows.getD j []) := by
  unfold updatedMaster
  split
  · exact foldl_updateOne_rowId b _ hws j
  · rfl

theorem updatedMaster_colValues (m b : DF) (s : Strategy) (hws : m.wellShaped) :
    (updatedMaster m b s).colValues idColName = m.colValues idColName := by
  apply ext_getD none
  · show ((updatedMaster m b s).rows.map _).length = (m.rows.map _).length
    rw [List.length_map, List.length_map, updatedMaster_length]
  · intro j hj
    have hjU : j < (updatedMaster m b s).rows.length := by
      simpa [DF.colValues] using hj
    have hjm : j < m.rows.length := by
      rw [← updatedMaster_length m b s]
      exact hjU
    show ((updatedMaster m b s).rows.map _).getD j none = (m.rows.map _).getD j none
    rw [getD_map _ none [] hjU, getD_map _ none [] hjm, updatedMaster_cols]
    exact updatedMaster_rowId hws j

theorem reindexRow_rowId {bCols : List String} {row : List Cell}
    {mCols : List String} (hm : idColName ∈ mCols) :
    rowId mCols (reindexRow bCols row mCols) = rowId bCols row :=
  reindexRow_cellOf hm

theorem overwrite_reindex_self {nCols : List String} {nRow : List Cell}
    {mCols : List String} :
    overwriteRow nCols nRow mCols (reindexRow nCols nRow mCols) =
      reindexRow nCols nRow mCols := by
  have hlen : (reindexRow nCols nRow mCols).length = mCols.length :=
    reindexRow_length _ _ _
  apply ext_getD none
  · rw [overwriteRow_length hlen, hlen]
  · intro j hj
    rw [overwriteRow_length hlen] at hj
    rw [overwriteRow_getD hj (by omega)]
    have hre : (reindexRow nCols nRow mCols).getD j none =
        cellOf nCols nRow (mCols.getD j "") := by
      rw [show reindexRow nCols nRow mCols =
          mCols.map (fun c => cellOf nCols nRow c) from rfl]
      rw [getD_map _ none "" hj]
    rw [hre]
    cases cellOf nCols nRow (mCols.getD j "") <;> rfl

theorem findIdxO_of_find? {α : Type} {p : α → Bool} {l : List α} {a : α}
    (d : α) (h : l.find? p = some a) :
    ∃ j, findIdxO p l = some j ∧ l.getD j d = a := by
  cases hj : findIdxO p l with
  | none =>
    rw [List.find?_eq_none.mpr (fun x hx => by
      simp [findIdxO_eq_none.mp hj x hx])] at h
    exact Option.noConfusion h
  | some j =>
    refine ⟨j, rfl, ?_⟩
    have := findIdxO_find?_getD d hj
    rw [h] at this
    exact (Option.some.injEq _ _).mp this.symm

theorem updateOne_eq_set {b m : DF} {p : Cell} {i : Nat} {nRow : List Cell}
    (h1 : firstIdxOf m p = some i) (h2 : firstRecOf b p = some nRow) :
    updateOne b m p =
      ⟨m.cols, setAt m.rows i (overwriteRow b.cols nRow m.cols (m.rows.getD i []))⟩ := by
  unfold updateOne
  rw [h1, h2]

theorem concat_empty_self (a : DF) (bcols : List String) (hnd : a.cols.Nodup)
    (hws : a.wellShaped) (hsub : ∀ c ∈ bcols, c ∈ a.cols) :
    a.concat ⟨bcols, []⟩ = a := by
  show (⟨concatCols a.cols bcols,
      a.rows.map (fun r => reindexRow a.cols r (concatCols a.cols bcols)) ++ []⟩ : DF) = a
  rw [List.append_nil, concatCols_subset hsub,
    map_id_of (fun r hr => reindexRow_self hnd (hws r hr))]

/-- C3 counterexample: when the batch carries a column the master does not
yet have, merging it twice with `update` is NOT idempotent — the first merge
skips the new field for the matched row (adding the column as missing), and
only the second merge writes the value, so the registry changes again. -/
theorem update_merge_not_idempotent_new_column :
    mergeWithMaster (some (⟨["anonymous_patient_id"], [[some "P1"]]⟩ : DF))
        ⟨["anonymous_patient_id", "icu_outcome"], [[some "P1", some "Survived"]]⟩
        Strategy.update =
      Except.ok ⟨["anonymous_patient_id", "icu_outcome"], [[some "P1", none]]⟩ ∧
    mergeWithMaster
        (some (⟨["anonymous_patient_id", "icu_outcome"], [[some "P1", none]]⟩ : DF))
        ⟨["anonymous_patient_id", "icu_outcome"], [[some "P1", some "Survived"]]⟩
        Strategy.update =
      Except.ok
        ⟨["anonymous_patient_id", "icu_outcome"], [[some "P1", some "Survived"]]⟩ ∧
    ¬ (⟨["anonymous_patient_id", "icu_outcome"],
        [[some "P1", some "Survived"]]⟩ : DF) =
      ⟨["anonymous_patient_id", "icu_outcome"], [[some "P1", none]]⟩ := by
  refine ⟨rfl, rfl, by decide⟩

/-- C3 (amended).  Merging the same batch twice with strategy `update` is
idempotent whenever every column of the batch already exists in the master
(in particular this always holds from the second application onward, since
the first merge adds the batch's columns): the second application changes
no row and adds no row. -/
theorem update_merge_idempotent_when_columns_subset
    (m b m1 : DF)
    (hm : idColName ∈ m.cols) (hb : idColName ∈ b.cols)
    (hnm : m.cols.Nodup) (hws : m.wellShaped)
    (hsub : ∀ c ∈ b.cols, c ∈ m.cols)
    (h1 : mergeWithMaster (some m) b Strategy.update = Except.ok m1) :
    mergeWithMaster (some m1) b Strategy.update = Except.ok m1 := by
  rw [merge_ok hm hb Strategy.update] at h1
  cases h1
  set U := updatedMaster m b Strategy.update with hU
  set N := newRecordsOf m b with hN
  have hUcols : U.cols = m.cols := updatedMaster_cols m b Strategy.update
  have hUlen : U.rows.length = m.rows.length := updatedMaster_length m b Strategy.update
  have hUws : U.wellShaped := updatedMaster_wellShaped b Strategy.update hws
  have hUids : U.colValues idColName = m.colValues idColName :=
    updatedMaster_colValues m b Strategy.update hws
  have hcs : concatCols U.cols N.cols = m.cols := by
    rw [hUcols]
    exact concatCols_subset hsub
  set F := N.rows.map (fun r => reindexRow b.cols r m.cols) with hF
  have hrowsEq : (U.concat N).rows = U.rows ++ F := by
    show U.rows.map (fun r => reindexRow U.cols r (concatCols U.cols N.cols)) ++
        N.rows.map (fun r => reindexRow N.cols r (concatCols U.cols N.cols)) =
      U.rows ++ F
    rw [hcs, hUcols]
    congr 1
    exact map_id_of (fun r hr => reindexRow_self hnm (by
      rw [← hUcols]
      exact hUws r hr))
  have hcolsEq : (U.concat N).cols = m.cols := by
    show concatCols U.cols N.cols = m.cols
    exact hcs
  have hwsC : (U.concat N).wellShaped := concat_wellShaped U N
  have hmemIds : ∀ r ∈ b.rows, rowId b.cols r ∈ (U.concat N).colValues idColName := by
    intro r hr
    unfold DF.colValues
    by_cases hqm : rowId b.cols r ∈ m.colValues idColName
    · rw [← hUids] at hqm
      unfold DF.colValues at hqm
      obtain ⟨r0, hr0, hcell⟩ := List.mem_map.mp hqm
      refine List.mem_map.mpr ⟨r0, ?_, ?_⟩
      · rw [hrowsEq]
        exact List.mem_append_left _ hr0
      · rw [hcolsEq, ← hUcols]
        exact hcell
    · have hrN : r ∈ N.rows := by
        rw [hN]
        exact List.mem_filter.mpr ⟨hr, by simpa using hqm⟩
      refine List.mem_map.mpr ⟨reindexRow b.cols r m.cols, ?_, ?_⟩
      · rw [hrowsEq]
        exact List.mem_append_right _ (List.mem_map.mpr ⟨r, hrN, rfl⟩)
      · rw [hcolsEq]
        exact reindexRow_rowId hm
  have hm1cols : idColName ∈ (U.concat N).cols := by
    rw [hcolsEq]
    exact hm
  rw [merge_ok hm1cols hb Strategy.update]
  have hnil : newRecordsOf (U.concat N) b = (⟨b.cols, []⟩ : DF) := by
    unfold newRecordsOf
    rw [List.filter_eq_nil_iff.mpr (fun r hr => by simp [hmemIds r hr])]
  have hstep : ∀ p ∈ overlappingIds (U.concat N) b,
      updateOne b (U.concat N) p = U.concat N := by
    intro p hp
    have hpb : p ∈ b.colValues idColName :=
      List.mem_dedup.mp (List.mem_filter.mp hp).1
    have hex : ∃ r ∈ b.rows, (fun r => decide (rowId b.cols r = p)) r = true := by
      unfold DF.colValues at hpb
      obtain ⟨r, hr, hcell⟩ := List.mem_map.mp hpb
      exact ⟨r, hr, by simp [rowId, hcell]⟩
    obtain ⟨nRow, hfr⟩ : ∃ nRow, firstRecOf b p = some nRow := by
      cases hfr0 : firstRecOf b p with
      | none =>
        exfalso
        obtain ⟨r, hr, hpr⟩ := hex
        have hnone : b.rows.find? (fun r => decide (rowId b.cols r = p)) = none := hfr0
        rw [List.find?_eq_none] at hnone
        exact hnone r hr hpr
      | some nRow => exact ⟨nRow, rfl⟩
    by_cases hpm : p ∈ m.colValues idColName
    · obtain ⟨i, hi⟩ : ∃ i, firstIdxOf m p = some i := by
        unfold DF.colValues at hpm
        obtain ⟨r, hr, hcell⟩ := List.mem_map.mp hpm
        exact findIdxO_of_mem hr (by simp [rowId, hcell])
      have him : i < m.rows.length := firstIdxOf_lt hi
      have hiU : i < U.rows.length := by
        rw [hUlen]
        exact him
      have hUfi : firstIdxOf U p = some i := by
        rw [hU, updatedMaster_firstIdxOf hws]
        exact hi
      have hfi1 : firstIdxOf (U.concat N) p = some i := by
        unfold firstIdxOf
        rw [hcolsEq, hrowsEq]
        apply findIdxO_append_left
        have hthis := hUfi
        unfold firstIdxOf at hthis
        rw [hUcols] at hthis
        exact hthis
      have hrowi : (U.concat N).rows.getD i [] =
          overwriteRow b.cols nRow m.cols (m.rows.getD i []) := by
        rw [hrowsEq, getD_append_left [] hiU, hU]
        exact updatedMaster_touched hws hpb hi hfr
      rw [updateOne_eq_set hfi1 hfr, hcolsEq, hrowi,
        overwriteRow_idem (wellShaped_row hws him), ← hrowi,
        setAt_of_getD [] (by
          rw [hrowsEq, List.length_append]
          omega) rfl, ← hcolsEq]
    · have hUnone : findIdxO (fun r => decide (rowId m.cols r = p)) U.rows = none := by
        rw [findIdxO_eq_none]
        intro r hr
        simp only [decide_eq_false_iff_not]
        intro hc
        apply hpm
        rw [← hUids]
        unfold DF.colValues
        refine List.mem_map.mpr ⟨r, hr, ?_⟩
        rw [hUcols]
        exact hc
      have hfindN : N.rows.find? (fun r => decide (rowId b.cols r = p)) = some nRow := by
        have hNr : N.rows =
            b.rows.filter (fun r => ¬ rowId b.cols r ∈ m.colValues idColName) := by
          rw [hN]
          rfl
        rw [hNr, find?_filter_of_imp]
        · exact hfr
        · intro r hrp
          simp only [decide_eq_true_eq] at hrp
          simp [hrp, hpm]
      obtain ⟨j, hjN, hgetN⟩ := findIdxO_of_find? [] hfindN
      have hjlen : j < N.rows.length := findIdxO_lt_length hjN
      have hjF : findIdxO (fun r => decide (rowId m.cols r = p)) F = some j := by
        rw [hF, findIdxO_map]
        rw [findIdxO_congr_pred (fun r => by rw [reindexRow_rowId hm]) N.rows]
        exact hjN
      have hfi1 : firstIdxOf (U.concat N) p = some (j + U.rows.length) := by
        unfold firstIdxOf
        rw [hcolsEq, hrowsEq, findIdxO_append_right hUnone, hjF]
        rfl
      have hrowi : (U.concat N).rows.getD (j + U.rows.length) [] =
          reindexRow b.cols nRow m.cols := by
        rw [hrowsEq, getD_append_right, hF, getD_map _ [] [] hjlen, hgetN]
      rw [updateOne_eq_set hfi1 hfr, hcolsEq, hrowi, overwrite_reindex_self, ← hrowi,
        setAt_of_getD [] (by
          rw [hrowsEq, List.length_append, hF, List.length_map]
          omega) rfl, ← hcolsEq]
  have hloop : updatedMaster (U.concat N) b Strategy.update = U.concat N := by
    unfold updatedMaster
    rw [if_pos rfl]
    exact foldl_updateOne_id hstep
  rw [hloop, hnil,
    concat_empty_self (U.concat N) b.cols
      (by rw [hcolsEq]; exact hnm) hwsC
      (fun c hc => by rw [hcolsEq]; exact hsub c hc)]

/-- Witness for C3 (amended): with the batch's columns already in the
master, re-merging the same batch returns the registry unchanged. -/
theorem update_merge_idempotent_witness :
    mergeWithMaster
        (some (⟨["anonymous_patient_id", "x"], [[some "P1", some "b"]]⟩ : DF))
        ⟨["anonymous_patient_id", "x"], [[some "P1", some "b"]]⟩ Strategy.update =
      Except.ok ⟨["anonymous_patient_id", "x"], [[some "P1", some "b"]]⟩ :=
  update_merge_idempotent_when_columns_subset
    ⟨["anonymous_patient_id", "x"], [[some "P1", some "a"]]⟩
    ⟨["anonymous_patient_id", "x"], [[some "P1", some "b"]]⟩
    ⟨["anonymous_patient_id", "x"], [[some "P1", some "b"]]⟩
    (by decide) (by decide) (by decide) (by unfold DF.wellShaped; decide)
    (by decide) rfl

/-! ## Lemmas: anonymise_dataframe (claim C10) -/

theorem getAnonymousIds_length (h : String → String) (st : AnonState)
    (ids : List Cell) : (getAnonymousIds h st ids).2.length = ids.length := by
  induction ids generalizing st with
  | nil => rfl
  | cons c t ih =>
    show ((getAnonymousIds h (getAnonymousId h st (cellToPyStr c)).1 t).1,
      (getAnonymousId h st (cellToPyStr c)).2 ::
        (getAnonymousIds h (getAnonymousId h st (cellToPyStr c)).1 t).2).2.length =
      (c :: t).length
    simp [ih]

theorem setCol_rows_length (df : DF) (name : String) (vals : List Cell)
    (hv : vals.length = df.rows.length) :
    (setCol df name vals).rows.length = df.rows.length := by
  unfold setCol
  cases findIdxO (fun x => x = name) df.cols <;>
    simp [List.length_zip, hv]

theorem setCol_name_mem (df : DF) (name : String) (vals : List Cell) :
    name ∈ (setCol df name vals).cols := by
  unfold setCol
  cases hfi : findIdxO (fun x => x = name) df.cols with
  | some j =>
    show name ∈ df.cols
    rw [← findIdxO_name hfi]
    exact getD_mem "" (findIdxO_lt_length hfi)
  | none =>
    show name ∈ df.cols ++ [name]
    exact List.mem_append_right _ (List.mem_singleton.mpr rfl)

theorem setCol_cols_sup (df : DF) (name : String) (vals : List Cell) {c : String}
    (hc : c ∈ df.cols) : c ∈ (setCol df name vals).cols := by
  unfold setCol
  cases findIdxO (fun x => x = name) df.cols with
  | some j => exact hc
  | none => exact List.mem_append_left _ hc

theorem setCol_wellShaped {df : DF} (name : String) (vals : List Cell)
    (hws : df.wellShaped) : (setCol df name vals).wellShaped := by
  unfold setCol
  cases hfi : findIdxO (fun x => x = name) df.cols with
  | some j =>
    intro r hr
    obtain ⟨rv, hmem, rfl⟩ := List.mem_map.mp hr
    show (setAt rv.1 j rv.2).length = df.cols.length
    rw [setAt_length]
    exact hws rv.1 (List.of_mem_zip hmem).1
  | none =>
    intro r hr
    obtain ⟨rv, hmem, rfl⟩ := List.mem_map.mp hr
    show (rv.1 ++ [rv.2]).length = (df.cols ++ [name]).length
    rw [List.length_append, List.length_append, hws rv.1 (List.of_mem_zip hmem).1]
    rfl

theorem setCol_cell_self (df : DF) (name : String) (vals : List Cell)
    (hws : df.wellShaped) (hv : vals.length = df.rows.length) {i : Nat}
    (hi : i < df.rows.length) :
    DF.cell (setCol df name vals) i name = vals.getD i none := by
  have hzi : i < (df.rows.zip vals).length := by
    rw [List.length_zip]
    omega
  unfold setCol DF.cell
  cases hfi : findIdxO (fun x => x = name) df.cols with
  | some j =>
    show cellOf df.cols
      (((df.rows.zip vals).map (fun rv => setAt rv.1 j rv.2)).getD i []) name =
      vals.getD i none
    rw [getD_map _ [] ([], none) hzi, getD_zip [] none hi (by omega),
      cellOf_of_findIdxO hfi]
    exact setAt_getD_self _ _ (by
      rw [wellShaped_row hws hi]
      exact findIdxO_lt_length hfi)
  | none =>
    show cellOf (df.cols ++ [name])
      (((df.rows.zip vals).map (fun rv => rv.1 ++ [rv.2])).getD i []) name =
      vals.getD i none
    rw [getD_map _ [] ([], none) hzi, getD_zip [] none hi (by omega)]
    have h0 : findIdxO (fun x => x = name) [name] = some 0 := by
      rw [findIdxO_cons, if_pos (by simp)]
    have hfi2 : findIdxO (fun x => x = name) (df.cols ++ [name]) =
        some df.cols.length := by
      rw [findIdxO_append_right hfi, h0]
      simp
    rw [cellOf_of_findIdxO hfi2, ← wellShaped_row hws hi]
    have hga := getD_append_right (df.rows.getD i []) [vals.getD i none] 0 none
    rw [Nat.zero_add] at hga
    rw [hga]
    rfl

theorem setCol_cell_other (df : DF) (name : String) (vals : List Cell) {c : String}
    (hws : df.wellShaped) (hv : vals.length = df.rows.length) (hc : ¬ c = name)
    {i : Nat} (hi : i < df.rows.length) :
    DF.cell (setCol df name vals) i c = DF.cell df i c := by
  have hzi : i < (df.rows.zip vals).length := by
    rw [List.length_zip]
    omega
  unfold setCol DF.cell
  cases hfi : findIdxO (fun x => x = name) df.cols with
  | some j =>
    show cellOf df.cols
      (((df.rows.zip vals).map (fun rv => setAt rv.1 j rv.2)).getD i []) c =
      cellOf df.cols (df.rows.getD i []) c
    rw [getD_map _ [] ([], none) hzi, getD_zip [] none hi (by omega)]
    cases hfc : findIdxO (fun x => x = c) df.cols with
    | none =>
      unfold cellOf
      rw [hfc]
    | some k =>
      rw [cellOf_of_findIdxO hfc, cellOf_of_findIdxO hfc]
      apply setAt_getD_ne
      intro hjk
      apply hc
      rw [← findIdxO_name hfc, ← hjk, findIdxO_name hfi]
  | none =>
    show cellOf (df.cols ++ [name])
      (((df.rows.zip vals).map (fun rv => rv.1 ++ [rv.2])).getD i []) c =
      cellOf df.cols (df.rows.getD i []) c
    rw [getD_map _ [] ([], none) hzi, getD_zip [] none hi (by omega)]
    cases hfc : findIdxO (fun x => x = c) df.cols with
    | some k =>
      rw [cellOf_of_findIdxO (findIdxO_append_left hfc), cellOf_of_findIdxO hfc]
      exact getD_append_left none (by
        rw [wellShaped_row hws hi]
        exact findIdxO_lt_length hfc)
    | none =>
      have hname : findIdxO (fun x => x = c) [name] = none := by
        rw [findIdxO_cons, if_neg (by simpa using (fun hc2 => hc hc2.symm))]
        rfl
      have h2 : findIdxO (fun x => x = c) (df.cols ++ [name]) = none := by
        rw [findIdxO_append_right hfc, hname]
        rfl
      unfold cellOf
      rw [h2, hfc]
theorem cellOf_pairs (L : List (String × Cell)) (c : String) :
    cellOf (L.map Prod.fst) (L.map Prod.snd) c =
      match L.find? (fun cv => cv.1 = c) with
      | some cv => cv.2
      | none => none := by
  induction L with
  | nil => rfl
  | cons av t ih =>
    by_cases hc : av.1 = c
    · unfold cellOf
      rw [List.map_cons, findIdxO_cons, if_pos (by simpa using hc),
        List.find?_cons_of_pos _ (by simpa using hc)]
      rfl
    · rw [List.map_cons, List.map_cons, List.find?_cons_of_neg _ (by simpa using hc)]
      unfold cellOf
      rw [findIdxO_cons, if_neg (by simpa using hc)]
      unfold cellOf at ih
      cases hfc : findIdxO (fun x => x = c) (t.map Prod.fst) with
      | none =>
        rw [hfc] at ih
        simpa using ih
      | some k =>
        rw [hfc] at ih
        simpa using ih

theorem dropCol_rows_length (df : DF) (name : String) :
    (dropCol df name).rows.length = df.rows.length := by
  simp [dropCol]

theorem dropCol_not_mem (df : DF) (name : String) :
    ¬ name ∈ (dropCol df name).cols := by
  intro h
  have := (List.mem_filter.mp h).2
  simp at this

theorem dropCol_mem {df : DF} {c : String} (name : String) (hc : c ∈ df.cols)
    (hne : ¬ c = name) : c ∈ (dropCol df name).cols :=
  List.mem_filter.mpr ⟨hc, by simpa using hne⟩

theorem dropCol_cell (df : DF) (name : String) {c : String} (hne : ¬ c = name)
    (hws : df.wellShaped) {i : Nat} (hi : i < df.rows.length) :
    DF.cell (dropCol df name) i c = DF.cell df i c := by
  unfold dropCol DF.cell
  show cellOf (df.cols.filter (fun x => ¬ x = name))
      ((df.rows.map (fun r =>
        ((df.cols.zip r).filter (fun cv => ¬ cv.1 = name)).map (fun cv => cv.2))).getD i [])
      c = cellOf df.cols (df.rows.getD i []) c
  rw [getD_map _ [] [] hi]
  have hlen : (df.rows.getD i []).length = df.cols.length :=
    wellShaped_row hws (by omega)
  have hfst : df.cols.filter (fun x => ¬ x = name) =
      ((df.cols.zip (df.rows.getD i [])).filter
        (fun cv => ¬ cv.1 = name)).map Prod.fst := by
    rw [show (fun cv : String × Cell => (¬ cv.1 = name : Bool)) =
        ((fun x => (¬ x = name : Bool)) ∘ Prod.fst) from rfl]
    rw [← List.filter_map]
    rw [List.map_fst_zip _ _ (by omega)]
  have hsnd : ((df.cols.zip (df.rows.getD i [])).filter
      (fun cv => ¬ cv.1 = name)).map (fun cv => cv.2) =
      ((df.cols.zip (df.rows.getD i [])).filter
        (fun cv => ¬ cv.1 = name)).map Prod.snd := rfl
  rw [hfst, hsnd, cellOf_pairs]
  rw [find?_filter_of_imp _ (fun cv hcv => by
    simp only [decide_eq_true_eq] at hcv
    simp [hcv, hne])]
  have hpairs := cellOf_pairs (df.cols.zip (df.rows.getD i [])) c
  rw [List.map_fst_zip _ _ (by omega), List.map_snd_zip _ _ (by omega)] at hpairs
  rw [← hpairs]

/-- C10 counterexample: when the identifier column is itself named
`anonymous_patient_id`, the anonymised frame does NOT contain an
`anonymous_patient_id` column — the freshly assigned column is overwritten
in place and then dropped together with the identifier. -/
theorem anonymise_identifier_name_clash :
    anonymiseDataframe (fun s => s) ⟨"S", [], 1⟩
        ⟨["anonymous_patient_id"], [[some "H1"]]⟩ "anonymous_patient_id" =
      Except.ok (⟨"S", [("H1S", "ICU-000001")], 2⟩,
        ⟨["patient_id_hash"], [[some "H1S"]]⟩) ∧
    ¬ "anonymous_patient_id" ∈ (⟨["patient_id_hash"], [[some "H1S"]]⟩ : DF).cols := by
  refine ⟨rfl, by decide⟩

/-- C10 (amended).  For every well-shaped input table containing the named
identifier column, provided that column is named neither
`anonymous_patient_id` nor `patient_id_hash`, `anonymise_dataframe` returns
a table with the same number of rows in which the identifier column is
absent and the columns `anonymous_patient_id` and `patient_id_hash` are
present and non-missing in every row; when the identifier column is absent
it returns an error instead. -/
theorem anonymise_dataframe_shape (h : String → String) (st st2 : AnonState)
    (df res : DF) (idc : String)
    (hne1 : ¬ idc = "anonymous_patient_id") (hne2 : ¬ idc = "patient_id_hash")
    (hws : df.wellShaped)
    (hres : anonymiseDataframe h st df idc = Except.ok (st2, res)) :
    res.rows.length = df.rows.length ∧
    ¬ idc ∈ res.cols ∧
    "anonymous_patient_id" ∈ res.cols ∧
    "patient_id_hash" ∈ res.cols ∧
    (∀ i, i < res.rows.length →
      (∃ v, res.cell i "anonymous_patient_id" = some v) ∧
      (∃ w, res.cell i "patient_id_hash" = some w)) ∧
    (¬ idc ∈ df.cols →
      anonymiseDataframe h st df idc = Except.error PErr.identifierColumnNotFound) := by
  by_cases hin : idc ∈ df.cols
  case neg =>
    unfold anonymiseDataframe at hres
    rw [if_neg hin] at hres
    exact Except.noConfusion hres
  unfold anonymiseDataframe at hres
  rw [if_pos hin] at hres
  rw [Except.ok.injEq, Prod.mk.injEq] at hres
  obtain ⟨-, hres⟩ := hres
  subst hres
  set pairs := (getAnonymousIds h st (df.colValues idc)).2 with hpairs
  set vals1 := pairs.map (fun p => some p.1) with hv1def
  set vals2 := pairs.map (fun p => some p.2) with hv2def
  set df1 := setCol df "anonymous_patient_id" vals1 with hdf1
  set df2 := setCol df1 "patient_id_hash" vals2 with hdf2
  have hplen : pairs.length = df.rows.length := by
    rw [hpairs, getAnonymousIds_length]
    simp [DF.colValues]
  have hv1 : vals1.length = df.rows.length := by
    rw [hv1def, List.length_map, hplen]
  have hlen1 : df1.rows.length = df.rows.length := setCol_rows_length df _ _ hv1
  have hws1 : df1.wellShaped := setCol_wellShaped _ _ hws
  have hv2 : vals2.length = df1.rows.length := by
    rw [hv2def, List.length_map, hplen, hlen1]
  have hlen2 : df2.rows.length = df1.rows.length := setCol_rows_length df1 _ _ hv2
  have hws2 : df2.wellShaped := setCol_wellShaped _ _ hws1
  have hlenr : (dropCol df2 idc).rows.length = df.rows.length := by
    rw [dropCol_rows_length, hlen2, hlen1]
  refine ⟨hlenr, dropCol_not_mem df2 idc, ?_, ?_, ?_, ?_⟩
  · exact dropCol_mem idc
      (setCol_cols_sup df1 _ _ (setCol_name_mem df _ vals1))
      (fun hcx => hne1 hcx.symm)
  · exact dropCol_mem idc (setCol_name_mem df1 _ vals2)
      (fun hcx => hne2 hcx.symm)
  · intro i hi
    rw [hlenr] at hi
    have hi2 : i < df2.rows.length := by omega
    have hi1 : i < df1.rows.length := by omega
    constructor
    · refine ⟨(pairs.getD i ("", "")).1, ?_⟩
      rw [dropCol_cell df2 idc (fun hcx => hne1 hcx.symm) hws2 hi2]
      rw [hdf2, setCol_cell_other df1 _ _ hws1 hv2 (by decide) hi1]
      rw [hdf1, setCol_cell_self df _ _ hws hv1 hi]
      rw [hv1def, getD_map _ none ("", "") (by omega)]
    · refine ⟨(pairs.getD i ("", "")).2, ?_⟩
      rw [dropCol_cell df2 idc (fun hcx => hne2 hcx.symm) hws2 hi2]
      rw [hdf2, setCol_cell_self df1 _ _ hws1 hv2 hi1]
      rw [hv2def, getD_map _ none ("", "") (by omega)]
  · intro hcontra
    exact absurd hin hcontra

/-- Witness for C10 (amended): anonymising a two-column table on
`hospital_number` keeps one row, drops the identifier, and adds non-missing
surrogate and digest columns. -/
theorem anonymise_dataframe_shape_witness :
    (⟨["icu_unit", "anonymous_patient_id", "patient_id_hash"],
        [[some "A600", some "ICU-000001", some "H1S"]]⟩ : DF).rows.length =
      (⟨["hospital_number", "icu_unit"], [[some "H1", some "A600"]]⟩ : DF).rows.length ∧
    ¬ "hospital_number" ∈ (⟨["icu_unit", "anonymous_patient_id", "patient_id_hash"],
        [[some "A600", some "ICU-000001", some "H1S"]]⟩ : DF).cols ∧
    "anonymous_patient_id" ∈ (⟨["icu_unit", "anonymous_patient_id", "patient_id_hash"],
        [[some "A600", some "ICU-000001", some "H1S"]]⟩ : DF).cols ∧
    (∃ v, (⟨["icu_unit", "anonymous_patient_id", "patient_id_hash"],
        [[some "A600", some "ICU-000001", some "H1S"]]⟩ : DF).cell 0
        "anonymous_patient_id" = some v) ∧
    (∃ w, (⟨["icu_unit", "anonymous_patient_id", "patient_id_hash"],
        [[some "A600", some "ICU-000001", some "H1S"]]⟩ : DF).cell 0
        "patient_id_hash" = some w) := by
  have T := anonymise_dataframe_shape (fun s => s) ⟨"S", [], 1⟩
    ⟨"S", [("H1S", "ICU-000001")], 2⟩
    ⟨["hospital_number", "icu_unit"], [[some "H1", some "A600"]]⟩
    ⟨["icu_unit", "anonymous_patient_id", "patient_id_hash"],
      [[some "A600", some "ICU-000001", some "H1S"]]⟩
    "hospital_number" (by decide) (by decide)
    (by unfold DF.wellShaped; decide) rfl
  exact ⟨T.1, T.2.1, T.2.2.1, (T.2.2.2.2.1 0 (by decide)).1, (T.2.2.2.2.1 0 (by decide)).2⟩

end ICU
